import Mathlib

/-!
Shallow embedding of the TicTacToeX game engine
(`src/lib/tictactoe/engine.ts`, types in `src/lib/tictactoe/types.ts`)
and proofs about it.

Modelling conventions:
* A JS `Player` value (`'X' | 'O' | null`) is `Option Mark` (called `Cell`).
* A board (`Player[][]`) is `List (List Cell)`.
* A raw JS index access `board[r][c]` can also produce `undefined` when out
  of range; we model the access as `Option Cell` (`cellAcc`), where `none`
  is JS `undefined`, `some none` is JS `null` (an empty cell) and
  `some (some m)` is a placed mark.  JS `=== null` is `= some none`, and
  `!== player` is `≠ some (some player)`.
* `Math.random()` draws are modelled by an explicit stream `List Rat`
  consumed left-to-right (an exhausted stream yields `0`, itself a legal
  value of `Math.random()`, so quantifying over `List Rat` covers every
  random behaviour).
* JS numbers that can be `±Infinity` (minimax scores, alpha, beta) are
  modelled by `JNum`; all finite values arising are integers.
* `Date.now()` is modelled as an explicit `now : Nat` argument.
-/

namespace TTT

/-- A placed mark: JS `'X' | 'O'`. -/
inductive Mark where
  | X
  | O
deriving DecidableEq, Repr

/-- A cell value: JS `'X' | 'O' | null`. -/
abbrev Cell := Option Mark

/-- An empty cell, JS `null`. -/
def Cell.nil : Cell := none

/-- JS `Player[][]`. -/
abbrev Board := List (List Cell)

/-- Raw JS index access `board[r][c]`: `none` models `undefined`. -/
def cellAcc (b : Board) (r c : Nat) : Option Cell :=
  (List.get? b r).bind fun row => List.get? row c

/-- `engine.ts` `createBoard`: `Array(size).fill(null).map(() => Array(size).fill(null))`. -/
def createBoard (size : Nat) : Board :=
  List.replicate size (List.replicate size (none : Cell))

/-- JS `GameMode = 'single' | 'local' | 'remote'`. -/
inductive GameMode where
  | single
  | local
  | remote
deriving DecidableEq, Repr

/-- JS `GameDifficulty = 'easy' | 'medium' | 'hard' | 'unbeatable'`. -/
inductive GameDifficulty where
  | easy
  | medium
  | hard
  | unbeatable
deriving DecidableEq, Repr

/-- JS `Move` record (`types.ts`).  The recorded player is always an actual
mark (`makeMove` records `state.currentPlayer`). -/
structure Move where
  player : Mark
  position : Nat × Nat
  timestamp : Nat
deriving DecidableEq, Repr

/-- JS `GameState` record (`types.ts`). -/
structure GState where
  board : Board
  currentPlayer : Mark
  winner : Cell
  isDraw : Bool
  isGameOver : Bool
  winningLine : Option (List (Nat × Nat))
  boardSize : Nat
  moveHistory : List Move
  gameMode : GameMode
  difficulty : GameDifficulty
  roomId : Option String
deriving DecidableEq, Repr

/-- `engine.ts` `createInitialState`. -/
def createInitialState (boardSize : Nat) (gameMode : GameMode)
    (difficulty : GameDifficulty) : GState where
  board := createBoard boardSize
  currentPlayer := Mark.X
  winner := none
  isDraw := false
  isGameOver := false
  winningLine := none
  boardSize := boardSize
  moveHistory := []
  gameMode := gameMode
  difficulty := difficulty
  roomId := none

/-- `engine.ts` `createTicTacToeEngine`: the engine is constructed with
`createInitialState(initialBoardSize, initialGameMode, initialDifficulty)`
and performs no validation of the size. -/
def createTicTacToeEngine (initialBoardSize : Nat) (initialGameMode : GameMode)
    (initialDifficulty : GameDifficulty) : GState :=
  createInitialState initialBoardSize initialGameMode initialDifficulty

/-- `engine.ts` `isValidMove`: bounds check against `state.boardSize`, then
`state.board[row][col] === null`.  (No `isGameOver` check appears in the
source.) -/
def isValidMove (s : GState) (position : Nat × Nat) : Bool :=
  let r := position.1
  let c := position.2
  if r ≥ s.boardSize || c ≥ s.boardSize then
    false
  else
    cellAcc s.board r c == some Cell.nil

/-- `engine.ts` `getAvailableMoves`: row-major scan of
`[0,boardSize) × [0,boardSize)` collecting cells that are `=== null`. -/
def getAvailableMoves (s : GState) : List (Nat × Nat) :=
  ((List.range s.boardSize).map fun r =>
    (List.range s.boardSize).filterMap fun c =>
      if cellAcc s.board r c == some Cell.nil then some (r, c) else none).flatten

/-! ## Win/draw detector (`engine.ts` `checkGameOver`) -/

/-- Result record of `checkGameOver`. -/
structure GOResult where
  isGameOver : Bool
  winner : Cell
  isDraw : Bool
  winningLine : Option (List (Nat × Nat))
deriving DecidableEq, Repr

/-- The non-terminal result. -/
def GOResult.ongoing : GOResult := ⟨false, none, false, none⟩

/-- A win result. -/
def GOResult.win (m : Mark) (line : List (Nat × Nat)) : GOResult :=
  ⟨true, some m, false, some line⟩

/-- Loop `for c in [0,size)` testing `board[row][c] !== player` with break:
succeeds iff every cell of the row equals the mark. -/
def rowCheck (b : Board) (size row : Nat) (player : Mark) : Bool :=
  (List.range size).all fun c => cellAcc b row c == some (some player)

/-- The positions pushed for a winning row, in loop order. -/
def rowLine (size row : Nat) : List (Nat × Nat) :=
  (List.range size).map fun c => (row, c)

/-- Column analogue of `rowCheck`. -/
def colCheck (b : Board) (size col : Nat) (player : Mark) : Bool :=
  (List.range size).all fun r => cellAcc b r col == some (some player)

/-- The positions pushed for a winning column, in loop order. -/
def colLine (size col : Nat) : List (Nat × Nat) :=
  (List.range size).map fun r => (r, col)

/-- Main-diagonal analogue of `rowCheck`. -/
def diagCheck (b : Board) (size : Nat) (player : Mark) : Bool :=
  (List.range size).all fun i => cellAcc b i i == some (some player)

/-- The positions pushed for a winning main diagonal. -/
def diagLine (size : Nat) : List (Nat × Nat) :=
  (List.range size).map fun i => (i, i)

/-- Anti-diagonal analogue of `rowCheck`. -/
def antiCheck (b : Board) (size : Nat) (player : Mark) : Bool :=
  (List.range size).all fun i => cellAcc b i (size - 1 - i) == some (some player)

/-- The positions pushed for a winning anti-diagonal. -/
def antiLine (size : Nat) : List (Nat × Nat) :=
  (List.range size).map fun i => (i, size - 1 - i)

/-- The draw fall-through at the end of `checkGameOver`: `isDraw` iff no cell
is `=== null` (a JS `undefined` hole does not count as empty). -/
def boardFull (b : Board) (size : Nat) : Bool :=
  (List.range size).all fun r =>
    (List.range size).all fun c => !(cellAcc b r c == some Cell.nil)

/-- The `{ isGameOver: isDraw, winner: null, isDraw, winningLine: null }`
fall-through result. -/
def drawResult (b : Board) (size : Nat) : GOResult :=
  let d := boardFull b size
  ⟨d, none, d, none⟩

/-- `checkGameOver(board, lastMove)` with a last move: check the row, the
column and (when on them) the diagonals through the move, in that order,
returning on the first win; otherwise fall through to the draw check.
If the cell of the last move is not a mark (`!player`), return the
non-terminal result. -/
def checkGameOverLast (b : Board) (row col : Nat) : GOResult :=
  let size := b.length
  match cellAcc b row col with
  | some (some player) =>
    if rowCheck b size row player then
      GOResult.win player (rowLine size row)
    else if colCheck b size col player then
      GOResult.win player (colLine size col)
    else if row == col && diagCheck b size player then
      GOResult.win player (diagLine size)
    else if row + col == size - 1 && antiCheck b size player then
      GOResult.win player (antiLine size)
    else
      drawResult b size
  | _ => GOResult.ongoing

/-- Full-scan rows loop: first row whose `board[row][0]` is a mark and whose
remaining cells all equal it. -/
def findRowWin (b : Board) (size : Nat) : Option GOResult :=
  (List.range size).findSome? fun row =>
    match cellAcc b row 0 with
    | some (some player) =>
      if rowCheck b size row player then
        some (GOResult.win player (rowLine size row))
      else none
    | _ => none

/-- Full-scan columns loop. -/
def findColWin (b : Board) (size : Nat) : Option GOResult :=
  (List.range size).findSome? fun col =>
    match cellAcc b 0 col with
    | some (some player) =>
      if colCheck b size col player then
        some (GOResult.win player (colLine size col))
      else none
    | _ => none

/-- Full-scan main-diagonal check, keyed on `board[0][0]`. -/
def findDiagWin (b : Board) (size : Nat) : Option GOResult :=
  match cellAcc b 0 0 with
  | some (some player) =>
    if diagCheck b size player then
      some (GOResult.win player (diagLine size))
    else none
  | _ => none

/-- Full-scan anti-diagonal check, keyed on `board[0][size - 1]`. -/
def findAntiWin (b : Board) (size : Nat) : Option GOResult :=
  match cellAcc b 0 (size - 1) with
  | some (some player) =>
    if antiCheck b size player then
      some (GOResult.win player (antiLine size))
    else none
  | _ => none

/-- `checkGameOver(board)` without a last move: rows, then columns, then the
main diagonal, then the anti-diagonal, each returning on the first win;
otherwise the draw fall-through. -/
def checkGameOverFull (b : Board) : GOResult :=
  let size := b.length
  match (findRowWin b size).orElse fun _ =>
        (findColWin b size).orElse fun _ =>
        (findDiagWin b size).orElse fun _ =>
        findAntiWin b size with
  | some res => res
  | none => drawResult b size

/-- `engine.ts` `checkGameOver(board, lastMove?)`. -/
def checkGameOver (b : Board) (lastMove : Option (Nat × Nat)) : GOResult :=
  match lastMove with
  | some (row, col) => checkGameOverLast b row col
  | none => checkGameOverFull b

/-! ## State transitions -/

/-- In-range JS assignment `board[r][c] = v` (in `makeMove` it is guarded by
`isValidMove`, so the indices address an existing cell). -/
def setCell (b : Board) (r c : Nat) (v : Cell) : Board :=
  b.set r ((b.getD r []).set c v)

/-- The pure state transition of `engine.ts` `makeMove` (the scheduling of
the deferred AI reply is modelled separately, see `SchedState`):
no-op when `state.isGameOver` or the move is invalid; otherwise place the
current player's mark, append the move, flip `currentPlayer`, and merge in
the result of `checkGameOver(newBoard, position)`. -/
def makeMove (s : GState) (position : Nat × Nat) (now : Nat) : GState :=
  if s.isGameOver || !isValidMove s position then s
  else
    let r := position.1
    let c := position.2
    let newBoard := setCell s.board r c (some s.currentPlayer)
    let mv : Move := ⟨s.currentPlayer, position, now⟩
    let go := checkGameOver newBoard (some position)
    { s with
      board := newBoard
      currentPlayer := if s.currentPlayer = Mark.X then Mark.O else Mark.X
      moveHistory := s.moveHistory ++ [mv]
      isGameOver := go.isGameOver
      winner := go.winner
      isDraw := go.isDraw
      winningLine := go.winningLine }

/-- `engine.ts` `resetGame`. -/
def resetGame (s : GState) : GState :=
  createInitialState s.boardSize s.gameMode s.difficulty

/-- `engine.ts` `changeBoardSize`: throws when the size is outside `[3,10]`,
else resets with the new size. -/
def changeBoardSize (s : GState) (size : Nat) : Except String GState :=
  if size < 3 ∨ size > 10 then
    Except.error "Board size must be between 3 and 10"
  else
    Except.ok (createInitialState size s.gameMode s.difficulty)

/-- `engine.ts` `changeGameMode`. -/
def changeGameMode (s : GState) (mode : GameMode) : GState :=
  createInitialState s.boardSize mode s.difficulty

/-- `engine.ts` `changeDifficulty`: mutates only the difficulty field. -/
def changeDifficulty (s : GState) (difficulty : GameDifficulty) : GState :=
  { s with difficulty := difficulty }

/-- The board-reconstruction loop shared by the `undoMove` branches:
replay a move log onto a fresh empty board. -/
def replayBoard (size : Nat) (history : List Move) : Board :=
  history.foldl
    (fun b mv => setCell b mv.position.1 mv.position.2 (some mv.player)) (createBoard size)

/-- `engine.ts` `undoMove`. -/
def undoMove (s : GState) : GState :=
  if h : s.moveHistory = [] then s
  else
    if s.gameMode = GameMode.single then
      let lastMove := s.moveHistory.getLast (by exact h)
      if lastMove.player = Mark.O ∧ 2 ≤ s.moveHistory.length then
        let newHistory := s.moveHistory.take (s.moveHistory.length - 2)
        { s with
          board := replayBoard s.boardSize newHistory
          currentPlayer := Mark.X
          winner := none
          isDraw := false
          isGameOver := false
          winningLine := none
          moveHistory := newHistory }
      else if lastMove.player = Mark.X then
        let newHistory := s.moveHistory.take (s.moveHistory.length - 1)
        { s with
          board := replayBoard s.boardSize newHistory
          currentPlayer := Mark.X
          winner := none
          isDraw := false
          isGameOver := false
          winningLine := none
          moveHistory := newHistory }
      else s
    else
      let newHistory := s.moveHistory.take (s.moveHistory.length - 1)
      { s with
        board := replayBoard s.boardSize newHistory
        currentPlayer := if s.currentPlayer = Mark.X then Mark.O else Mark.X
        winner := none
        isDraw := false
        isGameOver := false
        winningLine := none
        moveHistory := newHistory }

/-- `engine.ts` `joinRemoteGame`. -/
def joinRemoteGame (s : GState) (roomId : String) : GState :=
  { createInitialState s.boardSize GameMode.remote s.difficulty with
    roomId := some roomId }

/-! ## AI move selector (`minimax`, `evaluateBoard`, `getBestMove`) -/

/-- A JS number as it occurs in the minimax search: an integer or
`±Infinity`. -/
inductive JNum where
  | negInf
  | num (n : Int)
  | posInf
deriving DecidableEq, Repr

/-- JS `<` on such numbers. -/
def JNum.blt : JNum → JNum → Bool
  | negInf, negInf => false
  | negInf, _ => true
  | num _, negInf => false
  | num a, num b => a < b
  | num _, posInf => true
  | posInf, _ => false

/-- JS `<=` on such numbers. -/
def JNum.ble : JNum → JNum → Bool
  | negInf, _ => true
  | num _, negInf => false
  | num a, num b => a ≤ b
  | num _, posInf => true
  | posInf, posInf => true
  | posInf, _ => false

/-- JS `Math.max`. -/
def JNum.max (a b : JNum) : JNum := if JNum.blt a b then b else a

/-- JS `Math.min`. -/
def JNum.min (a b : JNum) : JNum := if JNum.blt b a then b else a

/-- `engine.ts` `evaluateLine`.  (The source also computes a `countEmpty`
that it never uses.) -/
def evaluateLine (line : List Cell) : Int :=
  let countX := (line.filter fun cell => cell == some Mark.X).length
  let countO := (line.filter fun cell => cell == some Mark.O).length
  let addO : Int := if countX = 0 ∧ 0 < countO then (2 : Int) ^ countO else 0
  let subX : Int := if countO = 0 ∧ 0 < countX then (2 : Int) ^ countX else 0
  addO - subX

/-- `engine.ts` `evaluateBoard`: sum of `evaluateLine` over all rows, all
columns, the main diagonal and the anti-diagonal. -/
def evaluateBoard (b : Board) : Int :=
  let size := b.length
  let rows := ((List.range size).map fun r => evaluateLine (b.getD r [])).sum
  let cols := ((List.range size).map fun c =>
    evaluateLine (b.map fun row => row.getD c Cell.nil)).sum
  let diag := evaluateLine ((List.range size).map fun i => (b.getD i []).getD i Cell.nil)
  let anti := evaluateLine
    ((List.range size).map fun i => (b.getD i []).getD (size - 1 - i) Cell.nil)
  rows + cols + diag + anti

/-- One `Math.random()` draw from the modelled stream. -/
def draw (rng : List Rat) : Rat × List Rat :=
  match rng with
  | [] => (0, [])
  | r :: rest => (r, rest)

/-- JS `Math.floor(q)` coerced to an index. -/
def jsFloorIndex (q : Rat) : Nat := q.floor.toNat

/-- Swap of two list entries (the JS destructuring swap
`[a[i], a[j]] = [a[j], a[i]]`). -/
def listSwap {α : Type} (l : List α) (i j : Nat) : List α :=
  match l.get? i, l.get? j with
  | some x, some y => (l.set i y).set j x
  | _, _ => l

/-- The descending loop of `engine.ts` `shuffleArray` (Fisher–Yates):
at counter `i`, swap index `i` with `j = Math.floor(random * (i + 1))`. -/
def shuffleGo {α : Type} (l : List α) (i : Nat) (rng : List Rat) :
    List α × List Rat :=
  match i with
  | 0 => (l, rng)
  | i + 1 =>
    let r := (draw rng).1
    let rng1 := (draw rng).2
    let j := jsFloorIndex (r * (i + 2 : Nat))
    shuffleGo (listSwap l (i + 1) j) i rng1

/-- `engine.ts` `shuffleArray`, from `i = length - 1` down to `1`. -/
def shuffleArray {α : Type} (l : List α) (rng : List Rat) :
    List α × List Rat :=
  shuffleGo l (l.length - 1) rng

/-- The available-move scan done inside `minimax` (it uses `board.length`
for both loop bounds, unlike `getAvailableMoves` which uses
`state.boardSize`). -/
def availableMovesB (b : Board) : List (Nat × Nat) :=
  ((List.range b.length).map fun r =>
    (List.range b.length).filterMap fun c =>
      if cellAcc b r c == some Cell.nil then some (r, c) else none).flatten

/-- Number of empty cells of a board; used only as recursion fuel for the
embedded `minimax` (each recursive call fills one empty cell, so
`countEmpty + 1` units of fuel can never run out). -/
def countEmpty (b : Board) : Nat := (availableMovesB b).length

/-- `state.boardSize === 3 ? Infinity : 5` — as a predicate
`depth >= maxDepth` (always false against `Infinity`). -/
def depthAtLimit (boardSize depth : Nat) : Bool :=
  if boardSize = 3 then false else 5 ≤ depth

/-- The record `{ score, position? }` returned by `minimax`. -/
structure MMResult where
  score : JNum
  position : Option (Nat × Nat)
deriving DecidableEq, Repr

/-- Accumulator of the move loop inside `minimax`: the mutable locals
`bestScore`, `bestMove`, `alpha`, `beta`, plus the random stream and the
`break` flag of the alpha-beta cutoff. -/
structure MMAcc where
  bestScore : JNum
  bestMove : Option (Nat × Nat)
  alpha : JNum
  beta : JNum
  rng : List Rat
  broke : Bool
deriving Repr

/-- One iteration of the move loop inside `minimax`: unless the alpha-beta
cutoff has broken out of the loop, play `mv` for the side to move, recurse
(`recurse` is the recursive call at the child board), and update
`bestScore`/`bestMove` and `alpha` (maximizing) or `beta` (minimizing),
breaking when `beta <= alpha`. -/
def minimaxStep (b : Board) (isMaximizing : Bool)
    (recurse : Board → JNum → JNum → List Rat → MMResult × List Rat)
    (acc : MMAcc) (mv : Nat × Nat) : MMAcc :=
  if acc.broke then acc
  else
    let newBoard := setCell b mv.1 mv.2
      (some (if isMaximizing then Mark.O else Mark.X))
    let r := recurse newBoard acc.alpha acc.beta acc.rng
    let res := r.1
    let rng2 := r.2
    if isMaximizing then
      let best := if JNum.blt acc.bestScore res.score then res.score
        else acc.bestScore
      let bestMv := if JNum.blt acc.bestScore res.score then some mv
        else acc.bestMove
      let alpha1 := JNum.max acc.alpha best
      ⟨best, bestMv, alpha1, acc.beta, rng2, JNum.ble acc.beta alpha1⟩
    else
      let best := if JNum.blt res.score acc.bestScore then res.score
        else acc.bestScore
      let bestMv := if JNum.blt res.score acc.bestScore then some mv
        else acc.bestMove
      let beta1 := JNum.min acc.beta best
      ⟨best, bestMv, acc.alpha, beta1, rng2, JNum.ble beta1 acc.alpha⟩

/-- The leaf branch of `minimax`: the early-return score when the node is
terminal or at the depth limit, `none` when the search must recurse. -/
def minimaxLeaf (b : Board) (bs depth : Nat) : Option JNum :=
  let g := checkGameOverFull b
  if g.isGameOver || depthAtLimit bs depth then
    if g.winner = some Mark.O then some (JNum.num (10 - (depth : Int)))
    else if g.winner = some Mark.X then some (JNum.num ((depth : Int) - 10))
    else if g.isDraw then some (JNum.num 0)
    else if depthAtLimit bs depth then some (JNum.num (evaluateBoard b))
    else none
  else none

/-- `engine.ts` `minimax(board, depth, isMaximizing, alpha, beta)`, with the
closed-over `state.boardSize` passed as `boardSize`, the random stream
threaded explicitly, and structural fuel (see `countEmpty`). -/
def minimaxF (fuel : Nat) (b : Board) (boardSize depth : Nat)
    (isMaximizing : Bool) (alpha beta : JNum) (rng : List Rat) :
    MMResult × List Rat :=
  match fuel with
  | 0 => (⟨JNum.num 0, none⟩, rng)
  | fuel + 1 =>
    match minimaxLeaf b boardSize depth with
    | some sc => (⟨sc, none⟩, rng)
    | none =>
      let availableMoves := availableMovesB b
      let shuffled := (shuffleArray availableMoves rng).1
      let rng1 := (shuffleArray availableMoves rng).2
      let init : MMAcc :=
        ⟨if isMaximizing then JNum.negInf else JNum.posInf, none, alpha, beta,
          rng1, false⟩
      let final := shuffled.foldl
        (minimaxStep b isMaximizing fun newBoard a bt rng2 =>
          minimaxF fuel newBoard boardSize (depth + 1) (!isMaximizing) a bt
            rng2)
        init
      (⟨final.bestScore, final.bestMove⟩, final.rng)

/-- The entry call `minimax(state.board, 0, true)` with default bounds,
fuel instantiated to its always-sufficient value. -/
def minimax (b : Board) (boardSize : Nat) (rng : List Rat) :
    MMResult × List Rat :=
  minimaxF (countEmpty b + 1) b boardSize 0 true JNum.negInf JNum.posInf rng

/-- The `bestMoveChance` table of `engine.ts` `getBestMove` (`0.3`, `0.6`,
`0.9` as exact rationals, written as raw numerator/denominator pairs so
that they evaluate by kernel reduction; `unbeatable` never reads the
table). -/
def bestMoveChance : GameDifficulty → Rat
  | GameDifficulty.easy => ⟨3, 10, by decide, by decide⟩
  | GameDifficulty.medium => ⟨3, 5, by decide, by decide⟩
  | GameDifficulty.hard => ⟨9, 10, by decide, by decide⟩
  | GameDifficulty.unbeatable => 1

/-- `engine.ts` `getBestMove`, returning the chosen move (or `null`) and
the rest of the random stream. -/
def getBestMove (s : GState) (rng : List Rat) :
    Option (Nat × Nat) × List Rat :=
  if s.isGameOver then (none, rng)
  else
    let availableMoves := getAvailableMoves s
    if availableMoves.length = 0 then (none, rng)
    else if s.difficulty ≠ GameDifficulty.unbeatable then
      let r1 := (draw rng).1
      let rng1 := (draw rng).2
      if r1 < bestMoveChance s.difficulty then
        let mm := (minimax s.board s.boardSize rng1).1
        let rng2 := (minimax s.board s.boardSize rng1).2
        match mm.position with
        | some p => (some p, rng2)
        | none =>
          let r2 := (draw rng2).1
          let rng3 := (draw rng2).2
          (some (availableMoves.getD
            (jsFloorIndex (r2 * availableMoves.length)) (0, 0)), rng3)
      else
        let r2 := (draw rng1).1
        let rng2 := (draw rng1).2
        (some (availableMoves.getD
          (jsFloorIndex (r2 * availableMoves.length)) (0, 0)), rng2)
    else
      let mm := (minimax s.board s.boardSize rng).1
      let rng2 := (minimax s.board s.boardSize rng).2
      match mm.position with
      | some p => (some p, rng2)
      | none => (some (availableMoves.getD 0 (0, 0)), rng2)

/-! ## Actions, dispatch, and the deferred machine reply

`makeMove` ends with `setTimeout(() => { const aiMove = getBestMove(); if
(aiMove) makeMove(aiMove); }, 500)` when in single-player mode with the
machine to move.  The engine stores no timer handle and no action clears
pending timers, so we model an engine instance as the current state plus
the number of scheduled, not-yet-fired timer callbacks; a fired callback
reads the state current at fire time. -/

/-- JS `GameAction` (`types.ts`). -/
inductive GameAction where
  | MAKE_MOVE (position : Nat × Nat)
  | RESET_GAME
  | CHANGE_BOARD_SIZE (size : Nat)
  | CHANGE_GAME_MODE (mode : GameMode)
  | CHANGE_DIFFICULTY (difficulty : GameDifficulty)
  | UNDO_MOVE
  | JOIN_REMOTE_GAME (roomId : String)
deriving DecidableEq, Repr

/-- An engine instance: current state plus pending machine-reply timers. -/
structure SchedState where
  st : GState
  pending : Nat
deriving Repr

/-- Whether `makeMove`, after its state update, schedules the deferred AI
reply: single-player mode, game not over, machine (`'O'`) to move. -/
def schedulesReply (s : GState) : Bool :=
  s.gameMode = GameMode.single ∧ s.isGameOver = false ∧
    s.currentPlayer = Mark.O

/-- `makeMove` at the instance level: the pure transition plus, unless the
move was rejected by the early return, scheduling of the machine reply. -/
def makeMoveS (cfg : SchedState) (position : Nat × Nat) (now : Nat) :
    SchedState :=
  if cfg.st.isGameOver || !isValidMove cfg.st position then cfg
  else
    let s1 := makeMove cfg.st position now
    ⟨s1, if schedulesReply s1 then cfg.pending + 1 else cfg.pending⟩

/-- Elapsing of one scheduled timer: the callback runs `getBestMove` against
the state current at fire time and, when it yields a move, plays it. -/
def fireTimer (cfg : SchedState) (rng : List Rat) (now : Nat) : SchedState :=
  match cfg.pending with
  | 0 => cfg
  | pending + 1 =>
    let cfg1 : SchedState := ⟨cfg.st, pending⟩
    match (getBestMove cfg1.st rng).1 with
    | some p => makeMoveS cfg1 p now
    | none => cfg1

/-- `engine.ts` `dispatch`.  `CHANGE_BOARD_SIZE` propagates the exception of
`changeBoardSize`; no branch touches the pending timers (the source keeps
no handle to cancel). -/
def dispatch (cfg : SchedState) (action : GameAction) (now : Nat) :
    Except String SchedState :=
  match action with
  | GameAction.MAKE_MOVE position => Except.ok (makeMoveS cfg position now)
  | GameAction.RESET_GAME => Except.ok ⟨resetGame cfg.st, cfg.pending⟩
  | GameAction.CHANGE_BOARD_SIZE size =>
    (changeBoardSize cfg.st size).map fun s1 => ⟨s1, cfg.pending⟩
  | GameAction.CHANGE_GAME_MODE mode =>
    Except.ok ⟨changeGameMode cfg.st mode, cfg.pending⟩
  | GameAction.CHANGE_DIFFICULTY difficulty =>
    Except.ok ⟨changeDifficulty cfg.st difficulty, cfg.pending⟩
  | GameAction.UNDO_MOVE => Except.ok ⟨undoMove cfg.st, cfg.pending⟩
  | GameAction.JOIN_REMOTE_GAME roomId =>
    Except.ok ⟨joinRemoteGame cfg.st roomId, cfg.pending⟩

/-! ## Specification-side definitions for refinement claims -/

/-- A square matrix: every row as long as the list of rows. -/
def SquareBoard (b : Board) : Prop := ∀ row ∈ b, row.length = b.length

/-- States whose board really is `boardSize × boardSize`. -/
def WFState (s : GState) : Prop :=
  s.board.length = s.boardSize ∧ ∀ row ∈ s.board, row.length = s.boardSize

/-- Modelled from the spec sentence for the heuristic ("if a line contains
only empty cells and/or the machine's mark, add `2^(machine marks in
line)`; if a line contains only empty cells and/or the opponent's mark,
subtract `2^(opponent marks in line)`"), per line. -/
def specLineScore (line : List Cell) : Int :=
  (if ∀ cell ∈ line, cell = Cell.nil ∨ cell = some Mark.O
    then (2 : Int) ^ (line.filter fun cell => cell == some Mark.O).length
    else 0) -
  (if ∀ cell ∈ line, cell = Cell.nil ∨ cell = some Mark.X
    then (2 : Int) ^ (line.filter fun cell => cell == some Mark.X).length
    else 0)

/-- The lines inspected by `evaluateBoard`, in its order: all rows, all
columns, the main diagonal, the anti-diagonal. -/
def boardLines (b : Board) : List (List Cell) :=
  let size := b.length
  (((List.range size).map fun r => b.getD r []) ++
   ((List.range size).map fun c => b.map fun row => row.getD c Cell.nil)) ++
  [(List.range size).map fun i => (b.getD i []).getD i Cell.nil,
   (List.range size).map fun i => (b.getD i []).getD (size - 1 - i) Cell.nil]

/-- Modelled from the spec: sum of the per-line contributions over every
row, every column, and both diagonals. -/
def specEvaluateBoard (b : Board) : Int :=
  ((boardLines b).map specLineScore).sum


/-- A modelled `Math.random()` stream is valid when every draw lies in
`[0,1)`. -/
def rngValid (rng : List Rat) : Prop := ∀ q ∈ rng, 0 ≤ q ∧ q < 1

/-- The states reachable through the engine's operations: the constructor
and the dispatchable transitions (a deferred machine reply is a
`makeMove`, so it is covered by `move`; a failed `CHANGE_BOARD_SIZE`
leaves the state unchanged). -/
inductive Reach : GState → Prop where
  | init (n : Nat) (mode : GameMode) (difficulty : GameDifficulty) :
      Reach (createTicTacToeEngine n mode difficulty)
  | move {s : GState} (p : Nat × Nat) (now : Nat) :
      Reach s → Reach (makeMove s p now)
  | reset {s : GState} : Reach s → Reach (resetGame s)
  | resize {s s2 : GState} (size : Nat) :
      Reach s → changeBoardSize s size = Except.ok s2 → Reach s2
  | mode {s : GState} (m : GameMode) : Reach s → Reach (changeGameMode s m)
  | diff {s : GState} (d : GameDifficulty) :
      Reach s → Reach (changeDifficulty s d)
  | undo {s : GState} : Reach s → Reach (undoMove s)
  | join {s : GState} (roomId : String) :
      Reach s → Reach (joinRemoteGame s roomId)

/-- The board with the cell at `(r, c)` cleared.  A board/last-move pair
that last-move mode is capable of evaluating is one whose cell holds the
mark that just played: the position before that move — this board — shows
no winner to the full-scan detector. -/
def clearCell (b : Board) (r c : Nat) : Board := setCell b r c Cell.nil

/-- Propositional form of `rowCheck`. -/
def RowWinP (b : Board) (n row : Nat) (m : Mark) : Prop :=
  ∀ c < n, cellAcc b row c = some (some m)

/-- Propositional form of `colCheck`. -/
def ColWinP (b : Board) (n col : Nat) (m : Mark) : Prop :=
  ∀ r < n, cellAcc b r col = some (some m)

/-- Propositional form of `diagCheck`. -/
def DiagWinP (b : Board) (n : Nat) (m : Mark) : Prop :=
  ∀ i < n, cellAcc b i i = some (some m)

/-- Propositional form of `antiCheck`. -/
def AntiWinP (b : Board) (n : Nat) (m : Mark) : Prop :=
  ∀ i < n, cellAcc b i (n - 1 - i) = some (some m)

/-! ## Wellformedness and basic board lemmas -/

theorem length_createBoard (n : Nat) : (createBoard n).length = n := by
  simp [createBoard]

theorem mem_createBoard {n : Nat} {row : List Cell} (h : row ∈ createBoard n) :
    row = List.replicate n (none : Cell) := by
  simpa [createBoard] using (List.eq_of_mem_replicate h)

theorem cellAcc_createBoard {n : Nat} (r c : Nat) (hr : r < n) (hc : c < n) :
    cellAcc (createBoard n) r c = some Cell.nil := by
  simp [cellAcc, createBoard, Cell.nil, List.get?_eq_getElem?,
    List.getElem?_replicate, hr, hc]

theorem cellAcc_isSome_left {b : Board} {r c : Nat} {v : Cell}
    (h : cellAcc b r c = some v) : r < b.length := by
  unfold cellAcc at h
  rcases hrow : b.get? r with _ | row
  · rw [hrow] at h; simp at h
  · exact (List.get?_eq_some.mp hrow).choose

theorem cellAcc_row {b : Board} {r c : Nat} {v : Cell}
    (h : cellAcc b r c = some v) :
    ∃ row, b.get? r = some row ∧ row.get? c = some v := by
  unfold cellAcc at h
  rcases hrow : b.get? r with _ | row
  · rw [hrow] at h; simp at h
  · rw [hrow] at h; exact ⟨row, rfl, h⟩

theorem cellAcc_eq_some_of_lt {b : Board} (hsq : SquareBoard b) {r c : Nat}
    (hr : r < b.length) (hc : c < b.length) :
    ∃ v, cellAcc b r c = some v := by
  rcases List.get?_eq_get hr with hrow
  refine ⟨(b.get ⟨r, hr⟩).get ⟨c, ?_⟩, ?_⟩
  · rw [hsq _ (b.get_mem r hr)]; exact hc
  · rw [cellAcc, hrow]; simp [List.get?_eq_get]

/-! ## C10: construction performs no size validation -/

/-- **C10**: the engine constructor performs no range validation: for every
natural `n`, `createTicTacToeEngine n mode difficulty` yields a state with
`boardSize = n` and an all-empty `n × n` board, even outside `[3,10]`;
the `[3,10]` bound is enforced only by `changeBoardSize`, which fails
exactly on sizes outside `[3,10]` and succeeds (with a fresh state of the
requested size) otherwise. -/
theorem construction_unvalidated_bound_only_in_changeBoardSize :
    (∀ (n : Nat) (mode : GameMode) (difficulty : GameDifficulty),
      (createTicTacToeEngine n mode difficulty).boardSize = n ∧
      (createTicTacToeEngine n mode difficulty).board.length = n ∧
      (∀ row ∈ (createTicTacToeEngine n mode difficulty).board,
        row.length = n) ∧
      (∀ r c, r < n → c < n →
        cellAcc (createTicTacToeEngine n mode difficulty).board r c =
          some Cell.nil)) ∧
    (∀ (s : GState) (size : Nat),
      (∃ e, changeBoardSize s size = Except.error e) ↔
        (size < 3 ∨ 10 < size)) := by
  constructor
  · intro n mode difficulty
    refine ⟨rfl, length_createBoard n, ?_, ?_⟩
    · intro row hrow
      rw [mem_createBoard hrow]; simp
    · intro r c hr hc
      exact cellAcc_createBoard r c hr hc
  · intro s size
    unfold changeBoardSize
    by_cases h : size < 3 ∨ size > 10
    · rw [if_pos h]
      exact ⟨fun _ => by omega, fun _ => ⟨_, rfl⟩⟩
    · rw [if_neg h]
      refine ⟨fun he => ?_, fun hc => absurd (by omega) h⟩
      rcases he with ⟨e, he⟩
      cases he

/-! ## C2: `isValidMove` ignores `isGameOver` -/

/-- **C2, counterexample**: a finished game (X just completed the top row;
the state is reached by five engine moves) on which `isValidMove` still
returns `true` for the empty cell `(2,2)` — so `isValidMove` is not false
once `isGameOver` is true, contradicting the claim. -/
theorem isValidMove_after_gameOver_counterexample :
    (makeMove (makeMove (makeMove (makeMove (makeMove
        (createTicTacToeEngine 3 GameMode.local GameDifficulty.unbeatable)
        (0, 0) 0) (1, 0) 1) (0, 1) 2) (1, 1) 3) (0, 2) 4).isGameOver
      = true ∧
    isValidMove (makeMove (makeMove (makeMove (makeMove (makeMove
        (createTicTacToeEngine 3 GameMode.local GameDifficulty.unbeatable)
        (0, 0) 0) (1, 0) 1) (0, 1) 2) (1, 1) 3) (0, 2) 4) (2, 2)
      = true := by
  constructor <;> rfl

/-- **C2, amended**: `isValidMove(p)` is true iff `p` is within
`[0,boardSize) × [0,boardSize)` and the addressed cell is empty; it does
not consult `isGameOver` (rejection of moves on a finished game happens in
`makeMove`, which returns early when `state.isGameOver`). -/
theorem isValidMove_iff_inBounds_and_empty (s : GState) (p : Nat × Nat) :
    isValidMove s p = true ↔
      p.1 < s.boardSize ∧ p.2 < s.boardSize ∧
        cellAcc s.board p.1 p.2 = some Cell.nil := by
  unfold isValidMove
  by_cases h : p.1 ≥ s.boardSize ∨ p.2 ≥ s.boardSize
  · have hb : (decide (p.1 ≥ s.boardSize) || decide (p.2 ≥ s.boardSize))
        = true := by
      rcases h with h | h <;> simp [h]
    rw [if_pos hb]
    refine ⟨fun hfalse => absurd hfalse (by decide), ?_⟩
    rintro ⟨h1, h2, _⟩
    rcases h with h | h <;> omega
  · push_neg at h
    have hb : (decide (p.1 ≥ s.boardSize) || decide (p.2 ≥ s.boardSize))
        = false := by
      simp only [Bool.or_eq_false_iff, decide_eq_false_iff_not, not_le]
      exact h
    rw [if_neg (by simp [hb])]
    simp only [beq_iff_eq]
    exact ⟨fun hc => ⟨h.1, h.2, hc⟩, fun hc => hc.2.2⟩

/-! ## C5: the heuristic evaluation matches its specification -/

theorem count_zero_iff (line : List Cell) (m : Mark) :
    (line.filter fun cell => cell == some m).length = 0 ↔
      ∀ cell ∈ line, cell ≠ some m := by
  rw [List.length_eq_zero, List.filter_eq_nil_iff]
  simp

theorem not_mark_iff (cell : Cell) :
    cell ≠ some Mark.X ↔ cell = Cell.nil ∨ cell = some Mark.O := by
  rcases cell with _ | m
  · simp [Cell.nil]
  · rcases m <;> simp [Cell.nil]

theorem not_mark_iff' (cell : Cell) :
    cell ≠ some Mark.O ↔ cell = Cell.nil ∨ cell = some Mark.X := by
  rcases cell with _ | m
  · simp [Cell.nil]
  · rcases m <;> simp [Cell.nil]

theorem evaluateLine_eq_spec (line : List Cell) :
    evaluateLine line = specLineScore line := by
  unfold evaluateLine specLineScore
  dsimp only
  set cx := (line.filter fun cell => cell == some Mark.X).length with hcx
  set co := (line.filter fun cell => cell == some Mark.O).length with hco
  have hX : cx = 0 ↔ ∀ cell ∈ line, cell = Cell.nil ∨ cell = some Mark.O := by
    rw [hcx, count_zero_iff]
    exact forall₂_congr fun cell _ => not_mark_iff cell
  have hO : co = 0 ↔ ∀ cell ∈ line, cell = Cell.nil ∨ cell = some Mark.X := by
    rw [hco, count_zero_iff]
    exact forall₂_congr fun cell _ => not_mark_iff' cell
  by_cases hx : cx = 0 <;> by_cases ho : co = 0
  · rw [if_pos (hX.mp hx), if_pos (hO.mp ho)]
    rw [if_neg (by omega), if_neg (by omega), hx, ho]
    norm_num
  · rw [if_pos (hX.mp hx), if_neg (fun hc => ho (hO.mpr hc))]
    rw [if_pos ⟨hx, by omega⟩, if_neg (by omega)]
  · rw [if_neg (fun hc => hx (hX.mpr hc)), if_pos (hO.mp ho)]
    rw [if_neg (by omega), if_pos ⟨ho, by omega⟩]
  · rw [if_neg (fun hc => hx (hX.mpr hc)), if_neg (fun hc => ho (hO.mpr hc))]
    rw [if_neg (by omega), if_neg (by omega)]

/-- **C5**: for every board, `evaluateBoard` equals the specification's sum
over every row, every column and both diagonals of the per-line
contribution (add `2^(O marks)` for a line of only empties/`O`, subtract
`2^(X marks)` for a line of only empties/`X`). -/
theorem evaluateBoard_eq_spec (b : Board) :
    evaluateBoard b = specEvaluateBoard b := by
  unfold evaluateBoard specEvaluateBoard boardLines
  simp only [List.map_append, List.sum_append, List.map_map, List.map_cons,
    List.map_nil, List.sum_cons, List.sum_nil, Function.comp_def]
  simp only [evaluateLine_eq_spec]
  ring

/-- Witness for C10 at `n = 12`: construction succeeds with a 12×12 empty
board while `CHANGE_BOARD_SIZE(12)` fails. -/
theorem construction_unvalidated_witness :
    (createTicTacToeEngine 12 GameMode.single GameDifficulty.easy).boardSize
        = 12 ∧
    cellAcc (createTicTacToeEngine 12 GameMode.single
      GameDifficulty.easy).board 11 11 = some Cell.nil ∧
    (∃ e, changeBoardSize
      (createTicTacToeEngine 12 GameMode.single GameDifficulty.easy) 12 =
        Except.error e) := by
  refine ⟨(construction_unvalidated_bound_only_in_changeBoardSize.1 12
    GameMode.single GameDifficulty.easy).1, ?_, ?_⟩
  · exact (construction_unvalidated_bound_only_in_changeBoardSize.1 12
      GameMode.single GameDifficulty.easy).2.2.2 11 11 (by decide) (by decide)
  · exact (construction_unvalidated_bound_only_in_changeBoardSize.2 _ 12).mpr
      (Or.inr (by decide))

/-! ## Shape of detector results -/

theorem findRowWin_win {b : Board} {size : Nat} {res : GOResult}
    (h : findRowWin b size = some res) : ∃ m line, res = GOResult.win m line := by
  rcases List.exists_of_findSome?_eq_some h with ⟨row, _, hf⟩
  rcases hcell : cellAcc b row 0 with _ | c
  · rw [hcell] at hf; cases hf
  · rcases c with _ | m
    · rw [hcell] at hf; cases hf
    · rw [hcell] at hf
      dsimp only at hf
      by_cases hrc : rowCheck b size row m
      · rw [if_pos hrc] at hf
        exact ⟨m, rowLine size row, (Option.some_inj.mp hf).symm⟩
      · rw [if_neg hrc] at hf; cases hf

theorem findColWin_win {b : Board} {size : Nat} {res : GOResult}
    (h : findColWin b size = some res) : ∃ m line, res = GOResult.win m line := by
  rcases List.exists_of_findSome?_eq_some h with ⟨col, _, hf⟩
  rcases hcell : cellAcc b 0 col with _ | c
  · rw [hcell] at hf; cases hf
  · rcases c with _ | m
    · rw [hcell] at hf; cases hf
    · rw [hcell] at hf
      dsimp only at hf
      by_cases hcc : colCheck b size col m
      · rw [if_pos hcc] at hf
        exact ⟨m, colLine size col, (Option.some_inj.mp hf).symm⟩
      · rw [if_neg hcc] at hf; cases hf

theorem findDiagWin_win {b : Board} {size : Nat} {res : GOResult}
    (h : findDiagWin b size = some res) : ∃ m line, res = GOResult.win m line := by
  unfold findDiagWin at h
  rcases hcell : cellAcc b 0 0 with _ | c <;> rw [hcell] at h
  · cases h
  · rcases c with _ | m
    · cases h
    · dsimp only at h
      by_cases hdc : diagCheck b size m
      · rw [if_pos hdc] at h
        exact ⟨m, diagLine size, (Option.some_inj.mp h).symm⟩
      · rw [if_neg hdc] at h; cases h

theorem findAntiWin_win {b : Board} {size : Nat} {res : GOResult}
    (h : findAntiWin b size = some res) : ∃ m line, res = GOResult.win m line := by
  unfold findAntiWin at h
  rcases hcell : cellAcc b 0 (size - 1) with _ | c <;> rw [hcell] at h
  · cases h
  · rcases c with _ | m
    · cases h
    · dsimp only at h
      by_cases hac : antiCheck b size m
      · rw [if_pos hac] at h
        exact ⟨m, antiLine size, (Option.some_inj.mp h).symm⟩
      · rw [if_neg hac] at h; cases h

theorem orElse_eq_some_cases {α : Type} {a : Option α} {f : Unit → Option α}
    {v : α} (h : a.orElse f = some v) : a = some v ∨ f () = some v := by
  cases a
  · right; simpa [Option.orElse] using h
  · left; simpa [Option.orElse] using h

theorem checkGameOverFull_shape (b : Board) :
    (∃ m line, checkGameOverFull b = GOResult.win m line) ∨
      checkGameOverFull b = drawResult b b.length := by
  unfold checkGameOverFull
  dsimp only
  rcases hscan : (findRowWin b b.length).orElse fun _ =>
      (findColWin b b.length).orElse fun _ =>
      (findDiagWin b b.length).orElse fun _ =>
      findAntiWin b b.length with _ | res
  · right; rfl
  · left
    dsimp only
    rcases orElse_eq_some_cases hscan with h | h2
    · rcases findRowWin_win h with ⟨m, line, rfl⟩; exact ⟨m, line, rfl⟩
    · rcases orElse_eq_some_cases h2 with h | h3
      · rcases findColWin_win h with ⟨m, line, rfl⟩; exact ⟨m, line, rfl⟩
      · rcases orElse_eq_some_cases h3 with h | h4
        · rcases findDiagWin_win h with ⟨m, line, rfl⟩; exact ⟨m, line, rfl⟩
        · rcases findAntiWin_win h4 with ⟨m, line, rfl⟩; exact ⟨m, line, rfl⟩

theorem winner_isGameOver {b : Board} {m : Mark}
    (h : (checkGameOverFull b).winner = some m) :
    (checkGameOverFull b).isGameOver = true := by
  rcases checkGameOverFull_shape b with ⟨m2, line, hw⟩ | hd
  · rw [hw]; rfl
  · rw [hd] at h; cases h

theorem winner_not_isDraw {b : Board} {m : Mark}
    (h : (checkGameOverFull b).winner = some m) :
    (checkGameOverFull b).isDraw = false := by
  rcases checkGameOverFull_shape b with ⟨m2, line, hw⟩ | hd
  · rw [hw]; rfl
  · rw [hd] at h; cases h

theorem isDraw_winner_none {b : Board}
    (h : (checkGameOverFull b).isDraw = true) :
    (checkGameOverFull b).winner = none := by
  rcases checkGameOverFull_shape b with ⟨m2, line, hw⟩ | hd
  · rw [hw] at h; cases h
  · rw [hd]; rfl

theorem isDraw_isGameOver {b : Board}
    (h : (checkGameOverFull b).isDraw = true) :
    (checkGameOverFull b).isGameOver = true := by
  rcases checkGameOverFull_shape b with ⟨m2, line, hw⟩ | hd
  · rw [hw] at h; cases h
  · rw [hd] at h ⊢; exact h

theorem not_gameOver_winner_none {b : Board}
    (h : (checkGameOverFull b).isGameOver = false) :
    (checkGameOverFull b).winner = none ∧ (checkGameOverFull b).isDraw = false := by
  rcases checkGameOverFull_shape b with ⟨m2, line, hw⟩ | hd
  · rw [hw] at h; cases h
  · rw [hd] at h ⊢; exact ⟨rfl, h⟩

/-! ## C4: minimax leaf evaluation -/

/-- **C4**: with `maxDepth` unbounded for `boardSize = 3` and `5` otherwise,
`minimax` evaluates leaves as: machine (`'O'`) win scores `10 - depth`,
opponent (`'X'`) win scores `depth - 10`, a draw scores `0`, and a
non-terminal board at the depth limit scores `evaluateBoard board`. -/
theorem minimax_leaf_scoring (fuel : Nat) (b : Board) (bs depth : Nat)
    (isMax : Bool) (alpha beta : JNum) (rng : List Rat) :
    ((bs = 3 → depthAtLimit bs depth = false) ∧
     (bs ≠ 3 → (depthAtLimit bs depth = true ↔ 5 ≤ depth))) ∧
    ((checkGameOverFull b).winner = some Mark.O →
      (minimaxF (fuel + 1) b bs depth isMax alpha beta rng).1.score =
        JNum.num (10 - (depth : Int))) ∧
    ((checkGameOverFull b).winner = some Mark.X →
      (minimaxF (fuel + 1) b bs depth isMax alpha beta rng).1.score =
        JNum.num ((depth : Int) - 10)) ∧
    ((checkGameOverFull b).isDraw = true →
      (minimaxF (fuel + 1) b bs depth isMax alpha beta rng).1.score =
        JNum.num 0) ∧
    ((checkGameOverFull b).isGameOver = false → depthAtLimit bs depth = true →
      (minimaxF (fuel + 1) b bs depth isMax alpha beta rng).1.score =
        JNum.num (evaluateBoard b)) := by
  refine ⟨⟨fun h3 => by simp [depthAtLimit, h3],
    fun h3 => by simp [depthAtLimit, h3]⟩, ?_, ?_, ?_, ?_⟩
  · intro h
    have hover := winner_isGameOver h
    simp [minimaxF, minimaxLeaf, hover, h]
  · intro h
    have hover := winner_isGameOver h
    simp [minimaxF, minimaxLeaf, hover, h]
  · intro h
    have hover := isDraw_isGameOver h
    have hwn := isDraw_winner_none h
    simp [minimaxF, minimaxLeaf, hover, hwn, h]
  · intro h hlimit
    rcases not_gameOver_winner_none h with ⟨hwn, hnd⟩
    simp [minimaxF, minimaxLeaf, h, hlimit, hwn, hnd]

/-- Witness for C4: a 3×3 board whose top row is all `'O'`, evaluated at
depth 2 inside the search, scores `10 - 2 = 8`. -/
theorem minimax_leaf_scoring_witness :
    (checkGameOverFull
      [[some Mark.O, some Mark.O, some Mark.O],
       [some Mark.X, some Mark.X, Cell.nil],
       [Cell.nil, Cell.nil, Cell.nil]]).winner = some Mark.O ∧
    (minimaxF 5
      [[some Mark.O, some Mark.O, some Mark.O],
       [some Mark.X, some Mark.X, Cell.nil],
       [Cell.nil, Cell.nil, Cell.nil]] 3 2 true JNum.negInf JNum.posInf
      []).1.score = JNum.num 8 := by
  refine ⟨by decide, ?_⟩
  have := (minimax_leaf_scoring 4
    [[some Mark.O, some Mark.O, some Mark.O],
     [some Mark.X, some Mark.X, Cell.nil],
     [Cell.nil, Cell.nil, Cell.nil]] 3 2 true JNum.negInf JNum.posInf
    []).2.1 (by decide)
  simpa using this

/-! ## C7: undo in single-player mode -/

/-- **C7**: in single-player mode with non-empty history, `UNDO_MOVE` drops
the last two moves when the most recent move is the machine's (`'O'`) and
at least two moves exist, and exactly the last move when it is the
human's (`'X'`); in both cases the board is rebuilt by replaying the
remaining prefix onto a fresh empty board, `currentPlayer` becomes `'X'`,
and `winner`, `isDraw`, `isGameOver`, `winningLine` are cleared. -/
theorem undoMove_single_mode (s : GState) (h : s.moveHistory ≠ [])
    (hmode : s.gameMode = GameMode.single) :
    ((s.moveHistory.getLast h).player = Mark.O → 2 ≤ s.moveHistory.length →
      undoMove s = { s with
        board := replayBoard s.boardSize
          (s.moveHistory.take (s.moveHistory.length - 2))
        currentPlayer := Mark.X
        winner := none
        isDraw := false
        isGameOver := false
        winningLine := none
        moveHistory := s.moveHistory.take (s.moveHistory.length - 2) }) ∧
    ((s.moveHistory.getLast h).player = Mark.X →
      undoMove s = { s with
        board := replayBoard s.boardSize
          (s.moveHistory.take (s.moveHistory.length - 1))
        currentPlayer := Mark.X
        winner := none
        isDraw := false
        isGameOver := false
        winningLine := none
        moveHistory := s.moveHistory.take (s.moveHistory.length - 1) }) := by
  constructor
  · intro hO hlen
    unfold undoMove
    rw [dif_neg h, if_pos hmode, if_pos ⟨hO, hlen⟩]
  · intro hX
    unfold undoMove
    rw [dif_neg h, if_pos hmode,
      if_neg (fun hc => by rw [hX] at hc; exact absurd hc.1 (by decide)),
      if_pos hX]

/-- Witness for C7: after the two single-player moves X(0,0), O(1,1), an
undo drops both moves (the last move is the machine's). -/
theorem undoMove_single_mode_witness :
    undoMove (makeMove (makeMove
        (createTicTacToeEngine 3 GameMode.single GameDifficulty.unbeatable)
        (0, 0) 0) (1, 1) 1) =
      { makeMove (makeMove
          (createTicTacToeEngine 3 GameMode.single GameDifficulty.unbeatable)
          (0, 0) 0) (1, 1) 1 with
        board := replayBoard 3 []
        currentPlayer := Mark.X
        winner := none
        isDraw := false
        isGameOver := false
        winningLine := none
        moveHistory := [] } := by
  have := (undoMove_single_mode (makeMove (makeMove
      (createTicTacToeEngine 3 GameMode.single GameDifficulty.unbeatable)
      (0, 0) 0) (1, 1) 1) (by decide) rfl).1 (by decide) (by decide)
  exact this

/-! ## C3: the deferred machine reply is never invalidated -/

unseal Rat.mul in
/-- **C3** (divergence evidence): `makeMove` schedules the machine reply via
a bare `setTimeout`; no handle is stored and `RESET_GAME` cancels nothing,
so the pending count stays `1` across the reset; when the timer then
fires, its callback runs against the post-reset state and applies a move
to it — here placing `'X'` (the fresh state's `currentPlayer`) at `(0,0)`
on the freshly reset board.  The claim's required invalidation does not
exist in the code. -/
theorem pending_reply_not_invalidated_by_reset :
    (makeMoveS ⟨createTicTacToeEngine 3 GameMode.single GameDifficulty.easy, 0⟩
      (0, 0) 0).pending = 1 ∧
    dispatch (makeMoveS
        ⟨createTicTacToeEngine 3 GameMode.single GameDifficulty.easy, 0⟩
        (0, 0) 0) GameAction.RESET_GAME 1 =
      Except.ok ⟨createInitialState 3 GameMode.single GameDifficulty.easy, 1⟩ ∧
    (fireTimer ⟨createInitialState 3 GameMode.single GameDifficulty.easy, 1⟩
        [⟨1, 2, by decide, by decide⟩, 0] 2).st.moveHistory =
      [⟨Mark.X, (0, 0), 2⟩] := by
  refine ⟨rfl, rfl, ?_⟩
  decide

/-! ## C9: the `getBestMove` contract -/

theorem mem_getAvailableMoves (s : GState) (p : Nat × Nat) :
    p ∈ getAvailableMoves s ↔
      p.1 < s.boardSize ∧ p.2 < s.boardSize ∧
        cellAcc s.board p.1 p.2 = some Cell.nil := by
  unfold getAvailableMoves
  rw [List.mem_flatten]
  constructor
  · rintro ⟨l, hl, hp⟩
    rcases List.mem_map.mp hl with ⟨r, hr, rfl⟩
    rcases List.mem_filterMap.mp hp with ⟨c, hc, hif⟩
    by_cases hcell : cellAcc s.board r c == some Cell.nil
    · rw [if_pos hcell] at hif
      cases hif
      exact ⟨List.mem_range.mp hr, List.mem_range.mp hc,
        by simpa using hcell⟩
    · rw [if_neg hcell] at hif; cases hif
  · rintro ⟨h1, h2, h3⟩
    refine ⟨(List.range s.boardSize).filterMap fun c =>
      if cellAcc s.board p.1 c == some Cell.nil then some (p.1, c) else none,
      List.mem_map.mpr ⟨p.1, List.mem_range.mpr h1, rfl⟩, ?_⟩
    refine List.mem_filterMap.mpr ⟨p.2, List.mem_range.mpr h2, ?_⟩
    rw [if_pos (by simpa using h3)]

theorem mem_availableMovesB (b : Board) (p : Nat × Nat) :
    p ∈ availableMovesB b ↔
      p.1 < b.length ∧ p.2 < b.length ∧
        cellAcc b p.1 p.2 = some Cell.nil := by
  unfold availableMovesB
  rw [List.mem_flatten]
  constructor
  · rintro ⟨l, hl, hp⟩
    rcases List.mem_map.mp hl with ⟨r, hr, rfl⟩
    rcases List.mem_filterMap.mp hp with ⟨c, hc, hif⟩
    by_cases hcell : cellAcc b r c == some Cell.nil
    · rw [if_pos hcell] at hif
      cases hif
      exact ⟨List.mem_range.mp hr, List.mem_range.mp hc,
        by simpa using hcell⟩
    · rw [if_neg hcell] at hif; cases hif
  · rintro ⟨h1, h2, h3⟩
    refine ⟨(List.range b.length).filterMap fun c =>
      if cellAcc b p.1 c == some Cell.nil then some (p.1, c) else none,
      List.mem_map.mpr ⟨p.1, List.mem_range.mpr h1, rfl⟩, ?_⟩
    refine List.mem_filterMap.mpr ⟨p.2, List.mem_range.mpr h2, ?_⟩
    rw [if_pos (by simpa using h3)]

theorem mem_of_listSwap {α : Type} {l : List α} {i j : Nat} {x : α}
    (h : x ∈ listSwap l i j) : x ∈ l := by
  unfold listSwap at h
  rcases hi : l.get? i with _ | xi <;> rw [hi] at h
  · exact h
  · rcases hj : l.get? j with _ | xj <;> rw [hj] at h
    · exact h
    · dsimp only at h
      rcases List.mem_or_eq_of_mem_set h with h2 | rfl
      · rcases List.mem_or_eq_of_mem_set h2 with h3 | rfl
        · exact h3
        · exact List.get?_mem hj
      · exact List.get?_mem hi

theorem mem_of_shuffleGo {α : Type} {l : List α} {i : Nat} {rng : List Rat}
    {x : α} (h : x ∈ (shuffleGo l i rng).1) : x ∈ l := by
  induction i generalizing l rng with
  | zero => exact h
  | succ i ih =>
    unfold shuffleGo at h
    exact mem_of_listSwap (ih h)

theorem mem_of_shuffleArray {α : Type} {l : List α} {rng : List Rat} {x : α}
    (h : x ∈ (shuffleArray l rng).1) : x ∈ l :=
  mem_of_shuffleGo h

theorem foldl_bestMove_mem (f : MMAcc → (Nat × Nat) → MMAcc)
    (hf : ∀ acc mv, (f acc mv).bestMove = acc.bestMove ∨
      (f acc mv).bestMove = some mv) :
    ∀ (l : List (Nat × Nat)) (acc : MMAcc),
      (l.foldl f acc).bestMove = acc.bestMove ∨
        ∃ mv ∈ l, (l.foldl f acc).bestMove = some mv := by
  intro l
  induction l with
  | nil => intro acc; left; rfl
  | cons a as ih =>
    intro acc
    rw [List.foldl_cons]
    rcases ih (f acc a) with h | ⟨mv, hmv, h⟩
    · rcases hf acc a with h2 | h2
      · left; rw [h, h2]
      · right; exact ⟨a, List.mem_cons_self a as, by rw [h, h2]⟩
    · right; exact ⟨mv, List.mem_cons_of_mem a hmv, h⟩

theorem minimaxStep_bestMove (b : Board) (isMax : Bool)
    (recurse : Board → JNum → JNum → List Rat → MMResult × List Rat)
    (acc : MMAcc) (mv : Nat × Nat) :
    (minimaxStep b isMax recurse acc mv).bestMove = acc.bestMove ∨
      (minimaxStep b isMax recurse acc mv).bestMove = some mv := by
  unfold minimaxStep
  by_cases hb : acc.broke
  · rw [if_pos hb]; left; rfl
  · rw [if_neg hb]
    dsimp only
    by_cases hm : isMax
  -- maximizing branch
    · rw [if_pos hm]
      by_cases hlt : JNum.blt acc.bestScore
          (recurse (setCell b mv.1 mv.2
            (some (if isMax then Mark.O else Mark.X))) acc.alpha acc.beta
            acc.rng).1.score
      · right; simp [hlt]
      · left; simp [hlt]
    · rw [if_neg hm]
      by_cases hlt : JNum.blt (recurse (setCell b mv.1 mv.2
            (some (if isMax then Mark.O else Mark.X))) acc.alpha acc.beta
            acc.rng).1.score acc.bestScore
      · right; simp [hlt]
      · left; simp [hlt]

theorem minimaxF_position_mem (fuel : Nat) (b : Board) (bs depth : Nat)
    (isMax : Bool) (alpha beta : JNum) (rng : List Rat) (p : Nat × Nat)
    (h : (minimaxF fuel b bs depth isMax alpha beta rng).1.position = some p) :
    p ∈ availableMovesB b := by
  match fuel with
  | 0 => cases h
  | fuel + 1 =>
    rw [minimaxF] at h
    rcases hleaf : minimaxLeaf b bs depth with _ | sc <;> rw [hleaf] at h
    · dsimp only at h
      rcases foldl_bestMove_mem _ (minimaxStep_bestMove b isMax _) _ _ with
        h2 | ⟨mv, hmv, h2⟩
      · rw [h2] at h; cases h
      · rw [h2] at h
        cases h
        exact mem_of_shuffleArray hmv
    · cases h

theorem draw_head_valid {rng : List Rat} (h : rngValid rng) :
    0 ≤ (draw rng).1 ∧ (draw rng).1 < 1 := by
  rcases rng with _ | ⟨r, rest⟩
  · exact ⟨le_refl 0, by decide⟩
  · exact h r (List.mem_cons_self r rest)

theorem draw_tail_valid {rng : List Rat} (h : rngValid rng) :
    rngValid (draw rng).2 := by
  rcases rng with _ | ⟨r, rest⟩
  · exact h
  · exact fun q hq => h q (List.mem_cons_of_mem r hq)

theorem shuffleGo_rng_valid {α : Type} (l : List α) (i : Nat)
    {rng : List Rat} (h : rngValid rng) :
    rngValid (shuffleGo l i rng).2 := by
  induction i generalizing l rng with
  | zero => exact h
  | succ i ih =>
    rw [shuffleGo]
    exact ih _ (draw_tail_valid h)

theorem shuffleArray_rng_valid {α : Type} (l : List α) {rng : List Rat}
    (h : rngValid rng) : rngValid (shuffleArray l rng).2 :=
  shuffleGo_rng_valid l _ h

theorem minimaxF_rng_valid (fuel : Nat) :
    ∀ (b : Board) (bs depth : Nat) (isMax : Bool) (alpha beta : JNum)
      (rng : List Rat), rngValid rng →
      rngValid (minimaxF fuel b bs depth isMax alpha beta rng).2 := by
  induction fuel with
  | zero => intro b bs depth isMax alpha beta rng h; exact h
  | succ fuel ih =>
    intro b bs depth isMax alpha beta rng h
    rw [minimaxF]
    rcases minimaxLeaf b bs depth with _ | sc
    · dsimp only
      have haux : ∀ (l : List (Nat × Nat)) (acc : MMAcc), rngValid acc.rng →
          rngValid ((l.foldl (minimaxStep b isMax fun newBoard a bt rng2 =>
            minimaxF fuel newBoard bs (depth + 1) (!isMax) a bt rng2)
              acc).rng) := by
        intro l
        induction l with
        | nil => intro acc hacc; exact hacc
        | cons a as ihl =>
          intro acc hacc
          rw [List.foldl_cons]
          apply ihl
          unfold minimaxStep
          by_cases hb : acc.broke
          · rw [if_pos hb]; exact hacc
          · rw [if_neg hb]
            dsimp only
            by_cases hm : isMax
            · rw [if_pos hm]
              exact ih _ _ _ _ _ _ _ hacc
            · rw [if_neg hm]
              exact ih _ _ _ _ _ _ _ hacc
      exact haux _ _ (shuffleArray_rng_valid _ h)
    · exact h

theorem ratFloor_eq_intFloor (q : Rat) : q.floor = ⌊q⌋ :=
  (Rat.floor_def' q).trans Rat.floor_def.symm

theorem jsFloorIndex_lt {r : Rat} {n : Nat} (h0 : 0 ≤ r) (h1 : r < 1)
    (hn : 0 < n) : jsFloorIndex (r * (n : Nat)) < n := by
  unfold jsFloorIndex
  rw [ratFloor_eq_intFloor]
  have hnq : (0 : Rat) < (n : Nat) := by exact_mod_cast hn
  have hlt : ⌊r * ((n : Nat) : Rat)⌋ < (n : Int) := by
    apply Int.floor_lt.mpr
    calc r * ((n : Nat) : Rat) < 1 * ((n : Nat) : Rat) :=
          mul_lt_mul_of_pos_right h1 hnq
    _ = ((n : Nat) : Rat) := one_mul _
    _ = ((n : Int) : Rat) := by push_cast; ring
  omega

theorem getD_mem_of_lt {α : Type} (l : List α) (i : Nat) (d : α)
    (h : i < l.length) : l.getD i d ∈ l := by
  rw [List.getD_eq_getElem l d h]
  exact List.getElem_mem h

/-- **C9**: `getBestMove` returns `none` iff the game is over or no legal
moves remain; otherwise, for every difficulty and every valid random
stream, it returns a legal position (in bounds and addressing an empty
cell).  It is a pure function of the state — the state is not changed. -/
theorem getBestMove_contract (s : GState) (hwf : WFState s) (rng : List Rat)
    (hrng : rngValid rng) :
    ((getBestMove s rng).1 = none ↔
      s.isGameOver = true ∨ getAvailableMoves s = []) ∧
    (∀ p, (getBestMove s rng).1 = some p →
      p.1 < s.boardSize ∧ p.2 < s.boardSize ∧
        cellAcc s.board p.1 p.2 = some Cell.nil) := by
  have hsome : ¬s.isGameOver = true → getAvailableMoves s ≠ [] →
      ∃ p, (getBestMove s rng).1 = some p ∧
        p.1 < s.boardSize ∧ p.2 < s.boardSize ∧
          cellAcc s.board p.1 p.2 = some Cell.nil := by
    intro hover havne
    have hav : ¬(getAvailableMoves s).length = 0 := by
      intro h0; exact havne (List.length_eq_zero.mp h0)
    have hpos : 0 < (getAvailableMoves s).length := Nat.pos_of_ne_zero hav
    have hmemLegal : ∀ p ∈ getAvailableMoves s,
        p.1 < s.boardSize ∧ p.2 < s.boardSize ∧
          cellAcc s.board p.1 p.2 = some Cell.nil :=
      fun p hp => (mem_getAvailableMoves s p).mp hp
    have hmmLegal : ∀ (rngx : List Rat) (p : Nat × Nat),
        (minimax s.board s.boardSize rngx).1.position = some p →
        p.1 < s.boardSize ∧ p.2 < s.boardSize ∧
          cellAcc s.board p.1 p.2 = some Cell.nil := by
      intro rngx p hp
      have hm := minimaxF_position_mem _ _ _ _ _ _ _ _ _ hp
      have h2 := (mem_availableMovesB _ _).mp hm
      exact ⟨hwf.1 ▸ h2.1, hwf.1 ▸ h2.2.1, h2.2.2⟩
    have hIdxLegal : ∀ (r : Rat), 0 ≤ r → r < 1 →
        ((getAvailableMoves s).getD
          (jsFloorIndex (r * (getAvailableMoves s).length)) (0, 0)) ∈
          getAvailableMoves s := by
      intro r hr0 hr1
      exact getD_mem_of_lt _ _ _ (jsFloorIndex_lt hr0 hr1 hpos)
    unfold getBestMove
    rw [if_neg hover]
    dsimp only
    rw [if_neg hav]
    by_cases hdiff : s.difficulty ≠ GameDifficulty.unbeatable
    · rw [if_pos hdiff]
      by_cases hr1 : (draw rng).1 < bestMoveChance s.difficulty
      · rw [if_pos hr1]
        rcases hmm : (minimax s.board s.boardSize (draw rng).2).1.position
          with _ | p
        · have hv2 : rngValid (minimax s.board s.boardSize (draw rng).2).2 :=
            minimaxF_rng_valid _ _ _ _ _ _ _ _ (draw_tail_valid hrng)
          rcases draw_head_valid hv2 with ⟨ha, hb⟩
          exact ⟨_, rfl, hmemLegal _ (hIdxLegal _ ha hb)⟩
        · exact ⟨p, rfl, hmmLegal _ p hmm⟩
      · rw [if_neg hr1]
        rcases draw_head_valid (draw_tail_valid hrng) with ⟨ha, hb⟩
        exact ⟨_, rfl, hmemLegal _ (hIdxLegal _ ha hb)⟩
    · rw [if_neg hdiff]
      rcases hmm : (minimax s.board s.boardSize rng).1.position with _ | p
      · exact ⟨_, rfl, hmemLegal _ (getD_mem_of_lt _ _ _ hpos)⟩
      · exact ⟨p, rfl, hmmLegal _ p hmm⟩
  by_cases hover : s.isGameOver
  · have hnone : (getBestMove s rng).1 = none := by
      unfold getBestMove; rw [if_pos hover]
    refine ⟨⟨fun _ => Or.inl hover, fun _ => hnone⟩, ?_⟩
    intro p hp
    rw [hnone] at hp
    cases hp
  · by_cases havE : getAvailableMoves s = []
    · have hnone : (getBestMove s rng).1 = none := by
        unfold getBestMove
        rw [if_neg hover]
        dsimp only
        rw [if_pos (by rw [havE]; rfl)]
      refine ⟨⟨fun _ => Or.inr havE, fun _ => hnone⟩, ?_⟩
      intro p hp
      rw [hnone] at hp
      cases hp
    · obtain ⟨p, hp, hleg⟩ := hsome hover havE
      constructor
      · constructor
        · intro hE
          rw [hp] at hE
          cases hE
        · intro hE
          rcases hE with hE | hE
          · exact absurd hE hover
          · exact absurd hE havE
      · intro q hq
        rw [hp] at hq
        cases hq
        exact hleg

/-- Witness for C9: on a fresh 3×3 easy game with random draws
`(1/2, 0)`, `getBestMove` returns the legal move `(0,0)`. -/
theorem getBestMove_contract_witness :
    WFState (createTicTacToeEngine 3 GameMode.single GameDifficulty.easy) ∧
    (((getBestMove
        (createTicTacToeEngine 3 GameMode.single GameDifficulty.easy)
        [⟨1, 2, by decide, by decide⟩]).1 = none ↔
      (createTicTacToeEngine 3 GameMode.single
        GameDifficulty.easy).isGameOver = true ∨
      getAvailableMoves (createTicTacToeEngine 3 GameMode.single
        GameDifficulty.easy) = []) ∧
    (∀ p, (getBestMove
        (createTicTacToeEngine 3 GameMode.single GameDifficulty.easy)
        [⟨1, 2, by decide, by decide⟩]).1 = some p →
      p.1 < 3 ∧ p.2 < 3 ∧
        cellAcc (createTicTacToeEngine 3 GameMode.single
          GameDifficulty.easy).board p.1 p.2 = some Cell.nil)) := by
  refine ⟨⟨rfl, by decide⟩, ?_⟩
  exact getBestMove_contract _ ⟨rfl, by decide⟩ _
    (by intro q hq
        rcases List.mem_cons.mp hq with rfl | h
        · exact ⟨by decide, by decide⟩
        · cases h)

/-! ## C8: the winning-line invariant -/

theorem setCell_length (b : Board) (r c : Nat) (v : Cell) :
    (setCell b r c v).length = b.length := List.length_set b r _

theorem setCell_rows {b : Board} {n : Nat}
    (hrows : ∀ row ∈ b, row.length = n) (r c : Nat) (v : Cell) :
    ∀ row ∈ setCell b r c v, row.length = n := by
  intro row hrow
  by_cases hr : r < b.length
  · rcases List.mem_or_eq_of_mem_set hrow with h | rfl
    · exact hrows _ h
    · rw [List.length_set, List.getD_eq_getElem b [] hr]
      exact hrows _ (List.getElem_mem hr)
  · rw [setCell, List.set_eq_of_length_le (Nat.le_of_not_lt hr)] at hrow
    exact hrows _ hrow

theorem rowCheck_cells {b : Board} {n row : Nat} {m : Mark}
    (h : rowCheck b n row m = true) :
    ∀ p ∈ rowLine n row, cellAcc b p.1 p.2 = some (some m) := by
  intro p hp
  rcases List.mem_map.mp hp with ⟨c, hc, rfl⟩
  simpa using List.all_eq_true.mp h c hc

theorem colCheck_cells {b : Board} {n col : Nat} {m : Mark}
    (h : colCheck b n col m = true) :
    ∀ p ∈ colLine n col, cellAcc b p.1 p.2 = some (some m) := by
  intro p hp
  rcases List.mem_map.mp hp with ⟨r, hr, rfl⟩
  simpa using List.all_eq_true.mp h r hr

theorem diagCheck_cells {b : Board} {n : Nat} {m : Mark}
    (h : diagCheck b n m = true) :
    ∀ p ∈ diagLine n, cellAcc b p.1 p.2 = some (some m) := by
  intro p hp
  rcases List.mem_map.mp hp with ⟨i, hi, rfl⟩
  simpa using List.all_eq_true.mp h i hi

theorem antiCheck_cells {b : Board} {n : Nat} {m : Mark}
    (h : antiCheck b n m = true) :
    ∀ p ∈ antiLine n, cellAcc b p.1 p.2 = some (some m) := by
  intro p hp
  rcases List.mem_map.mp hp with ⟨i, hi, rfl⟩
  simpa using List.all_eq_true.mp h i hi

theorem findRowWin_line {b : Board} {size : Nat} {res : GOResult}
    (h : findRowWin b size = some res) :
    ∃ m row, res = GOResult.win m (rowLine size row) ∧
      rowCheck b size row m = true := by
  rcases List.exists_of_findSome?_eq_some h with ⟨row, _, hf⟩
  rcases hcell : cellAcc b row 0 with _ | c <;> rw [hcell] at hf
  · cases hf
  · rcases c with _ | m
    · cases hf
    · dsimp only at hf
      by_cases hrc : rowCheck b size row m
      · rw [if_pos hrc] at hf
        exact ⟨m, row, (Option.some_inj.mp hf).symm, hrc⟩
      · rw [if_neg hrc] at hf; cases hf

theorem findColWin_line {b : Board} {size : Nat} {res : GOResult}
    (h : findColWin b size = some res) :
    ∃ m col, res = GOResult.win m (colLine size col) ∧
      colCheck b size col m = true := by
  rcases List.exists_of_findSome?_eq_some h with ⟨col, _, hf⟩
  rcases hcell : cellAcc b 0 col with _ | c <;> rw [hcell] at hf
  · cases hf
  · rcases c with _ | m
    · cases hf
    · dsimp only at hf
      by_cases hcc : colCheck b size col m
      · rw [if_pos hcc] at hf
        exact ⟨m, col, (Option.some_inj.mp hf).symm, hcc⟩
      · rw [if_neg hcc] at hf; cases hf

theorem findDiagWin_line {b : Board} {size : Nat} {res : GOResult}
    (h : findDiagWin b size = some res) :
    ∃ m, res = GOResult.win m (diagLine size) ∧ diagCheck b size m = true := by
  unfold findDiagWin at h
  rcases hcell : cellAcc b 0 0 with _ | c <;> rw [hcell] at h
  · cases h
  · rcases c with _ | m
    · cases h
    · dsimp only at h
      by_cases hdc : diagCheck b size m
      · rw [if_pos hdc] at h
        exact ⟨m, (Option.some_inj.mp h).symm, hdc⟩
      · rw [if_neg hdc] at h; cases h

theorem findAntiWin_line {b : Board} {size : Nat} {res : GOResult}
    (h : findAntiWin b size = some res) :
    ∃ m, res = GOResult.win m (antiLine size) ∧ antiCheck b size m = true := by
  unfold findAntiWin at h
  rcases hcell : cellAcc b 0 (size - 1) with _ | c <;> rw [hcell] at h
  · cases h
  · rcases c with _ | m
    · cases h
    · dsimp only at h
      by_cases hac : antiCheck b size m
      · rw [if_pos hac] at h
        exact ⟨m, (Option.some_inj.mp h).symm, hac⟩
      · rw [if_neg hac] at h; cases h

theorem checkGameOver_winningLine (b : Board) (lm : Option (Nat × Nat))
    (L : List (Nat × Nat)) (h : (checkGameOver b lm).winningLine = some L) :
    L.length = b.length ∧ ∃ m, (checkGameOver b lm).winner = some m ∧
      ∀ p ∈ L, cellAcc b p.1 p.2 = some (some m) := by
  rcases lm with _ | ⟨r, c⟩
  · rw [checkGameOver] at h ⊢
    have hredS : ∀ res, ((findRowWin b b.length).orElse fun _ =>
        (findColWin b b.length).orElse fun _ =>
        (findDiagWin b b.length).orElse fun _ =>
        findAntiWin b b.length) = some res → checkGameOverFull b = res := by
      intro res hr
      unfold checkGameOverFull
      dsimp only
      rw [hr]
    have hredN : ((findRowWin b b.length).orElse fun _ =>
        (findColWin b b.length).orElse fun _ =>
        (findDiagWin b b.length).orElse fun _ =>
        findAntiWin b b.length) = none →
        checkGameOverFull b = drawResult b b.length := by
      intro hr
      unfold checkGameOverFull
      dsimp only
      rw [hr]
    rcases hscan : (findRowWin b b.length).orElse fun _ =>
        (findColWin b b.length).orElse fun _ =>
        (findDiagWin b b.length).orElse fun _ =>
        findAntiWin b b.length with _ | res
    · rw [hredN hscan] at h
      cases h
    · rw [hredS res hscan] at h ⊢
      rcases orElse_eq_some_cases hscan with h1 | h2
      · rcases findRowWin_line h1 with ⟨m, row, rfl, hchk⟩
        cases h
        exact ⟨by simp [rowLine], m, rfl, rowCheck_cells hchk⟩
      · rcases orElse_eq_some_cases h2 with h1 | h3
        · rcases findColWin_line h1 with ⟨m, col, rfl, hchk⟩
          cases h
          exact ⟨by simp [colLine], m, rfl, colCheck_cells hchk⟩
        · rcases orElse_eq_some_cases h3 with h1 | h4
          · rcases findDiagWin_line h1 with ⟨m, rfl, hchk⟩
            cases h
            exact ⟨by simp [diagLine], m, rfl, diagCheck_cells hchk⟩
          · rcases findAntiWin_line h4 with ⟨m, rfl, hchk⟩
            cases h
            exact ⟨by simp [antiLine], m, rfl, antiCheck_cells hchk⟩
  · rw [checkGameOver] at h ⊢
    rcases hcell : cellAcc b r c with _ | cl
    · have hred : checkGameOverLast b r c = GOResult.ongoing := by
        unfold checkGameOverLast
        dsimp only
        rw [hcell]
      rw [hred] at h
      cases h
    · rcases cl with _ | m
      · have hred : checkGameOverLast b r c = GOResult.ongoing := by
          unfold checkGameOverLast
          dsimp only
          rw [hcell]
        rw [hred] at h
        cases h
      · by_cases h1 : rowCheck b b.length r m
        · have hred : checkGameOverLast b r c =
              GOResult.win m (rowLine b.length r) := by
            unfold checkGameOverLast
            dsimp only
            rw [hcell]
            dsimp only
            rw [if_pos h1]
          rw [hred] at h ⊢
          cases h
          exact ⟨by simp [rowLine], m, rfl, rowCheck_cells h1⟩
        · by_cases h2 : colCheck b b.length c m
          · have hred : checkGameOverLast b r c =
                GOResult.win m (colLine b.length c) := by
              unfold checkGameOverLast
              dsimp only
              rw [hcell]
              dsimp only
              rw [if_neg h1, if_pos h2]
            rw [hred] at h ⊢
            cases h
            exact ⟨by simp [colLine], m, rfl, colCheck_cells h2⟩
          · by_cases h3 : (r == c && diagCheck b b.length m) = true
            · have hred : checkGameOverLast b r c =
                  GOResult.win m (diagLine b.length) := by
                unfold checkGameOverLast
                dsimp only
                rw [hcell]
                dsimp only
                rw [if_neg h1, if_neg h2, if_pos h3]
              rw [hred] at h ⊢
              cases h
              exact ⟨by simp [diagLine], m, rfl,
                diagCheck_cells (Bool.and_elim_right h3)⟩
            · by_cases h4 : (r + c == b.length - 1 &&
                  antiCheck b b.length m) = true
              · have hred : checkGameOverLast b r c =
                    GOResult.win m (antiLine b.length) := by
                  unfold checkGameOverLast
                  dsimp only
                  rw [hcell]
                  dsimp only
                  rw [if_neg h1, if_neg h2, if_neg h3, if_pos h4]
                rw [hred] at h ⊢
                cases h
                exact ⟨by simp [antiLine], m, rfl,
                  antiCheck_cells (Bool.and_elim_right h4)⟩
              · have hred : checkGameOverLast b r c =
                    drawResult b b.length := by
                  unfold checkGameOverLast
                  dsimp only
                  rw [hcell]
                  dsimp only
                  rw [if_neg h1, if_neg h2, if_neg h3, if_neg h4]
                rw [hred] at h
                cases h

theorem replayBoard_wf (n : Nat) (hist : List Move) :
    (replayBoard n hist).length = n ∧
      ∀ row ∈ replayBoard n hist, row.length = n := by
  unfold replayBoard
  suffices haux : ∀ (h2 : List Move) (b : Board), b.length = n →
      (∀ row ∈ b, row.length = n) →
      ((h2.foldl (fun b mv =>
          setCell b mv.position.1 mv.position.2 (some mv.player)) b).length
        = n ∧
       ∀ row ∈ h2.foldl (fun b mv =>
          setCell b mv.position.1 mv.position.2 (some mv.player)) b,
         row.length = n) by
    exact haux hist _ (length_createBoard n)
      (fun row hrow => by rw [mem_createBoard hrow]; simp)
  intro h2
  induction h2 with
  | nil => intro b hb1 hb2; exact ⟨hb1, hb2⟩
  | cons mv rest ihh =>
    intro b hb1 hb2
    rw [List.foldl_cons]
    exact ihh _ (by rw [setCell_length]; exact hb1) (setCell_rows hb2 _ _ _)

theorem createInitialState_inv (n : Nat) (mode : GameMode)
    (difficulty : GameDifficulty) :
    ((createInitialState n mode difficulty).board.length =
        (createInitialState n mode difficulty).boardSize ∧
      ∀ row ∈ (createInitialState n mode difficulty).board,
        row.length = (createInitialState n mode difficulty).boardSize) ∧
    (∀ L, (createInitialState n mode difficulty).winningLine = some L →
      L.length = (createInitialState n mode difficulty).boardSize ∧
      ∃ m, (createInitialState n mode difficulty).winner = some m ∧
        ∀ p ∈ L, cellAcc (createInitialState n mode difficulty).board p.1 p.2
          = some (some m)) := by
  refine ⟨⟨length_createBoard n, ?_⟩, ?_⟩
  · intro row hrow
    rw [mem_createBoard hrow]
    simp
    rfl
  · intro L hL
    cases hL

theorem reach_wf_and_line (s : GState) (h : Reach s) :
    (s.board.length = s.boardSize ∧
      ∀ row ∈ s.board, row.length = s.boardSize) ∧
    (∀ L, s.winningLine = some L → L.length = s.boardSize ∧
      ∃ m, s.winner = some m ∧
        ∀ p ∈ L, cellAcc s.board p.1 p.2 = some (some m)) := by
  induction h with
  | init n mode difficulty => exact createInitialState_inv n mode difficulty
  | @move s p now hs ih =>
    unfold makeMove
    by_cases hguard : (s.isGameOver || !isValidMove s p) = true
    · rw [if_pos hguard]
      exact ih
    · rw [if_neg hguard]
      have hvalid : isValidMove s p = true := by
        by_contra hc
        apply hguard
        rw [Bool.eq_false_iff.mpr hc]
        simp
      constructor
      · constructor
        · rw [setCell_length]
          exact ih.1.1
        · exact setCell_rows (n := s.boardSize) ih.1.2 _ _ _
      · intro L hL
        dsimp only at hL
        rcases checkGameOver_winningLine _ _ _ hL with ⟨hlen, m, hwin, hcells⟩
        refine ⟨by rw [hlen, setCell_length]; exact ih.1.1, m, hwin, hcells⟩
  | @reset s hs ih =>
    unfold resetGame
    exact createInitialState_inv _ _ _
  | @resize s s2 size hs hok ih =>
    unfold changeBoardSize at hok
    by_cases hc : size < 3 ∨ size > 10
    · rw [if_pos hc] at hok
      cases hok
    · rw [if_neg hc] at hok
      cases hok
      exact createInitialState_inv _ _ _
  | @mode s m hs ih =>
    unfold changeGameMode
    exact createInitialState_inv _ _ _
  | @diff s d hs ih => exact ih
  | @undo s hs ih =>
    unfold undoMove
    by_cases hh : s.moveHistory = []
    · rw [dif_pos hh]
      exact ih
    · rw [dif_neg hh]
      by_cases hm : s.gameMode = GameMode.single
      · rw [if_pos hm]
        by_cases h1 : (s.moveHistory.getLast hh).player = Mark.O ∧
            2 ≤ s.moveHistory.length
        · rw [if_pos h1]
          refine ⟨⟨(replayBoard_wf _ _).1, (replayBoard_wf _ _).2⟩, ?_⟩
          intro L hL
          cases hL
        · rw [if_neg h1]
          by_cases h2 : (s.moveHistory.getLast hh).player = Mark.X
          · rw [if_pos h2]
            refine ⟨⟨(replayBoard_wf _ _).1, (replayBoard_wf _ _).2⟩, ?_⟩
            intro L hL
            cases hL
          · rw [if_neg h2]
            exact ih
      · rw [if_neg hm]
        refine ⟨⟨(replayBoard_wf _ _).1, (replayBoard_wf _ _).2⟩, ?_⟩
        intro L hL
        cases hL
  | @join s roomId hs ih =>
    unfold joinRemoteGame
    refine ⟨⟨length_createBoard _, ?_⟩, ?_⟩
    · intro row hrow
      rw [mem_createBoard hrow]
      simp
      rfl
    · intro L hL
      cases hL

/-- **C8**: in every state reachable through the engine's operations, a
non-`none` `winningLine` has exactly `boardSize` positions, the winner is
a mark (not `none`), and every cell at those positions holds the winner's
mark. -/
theorem reachable_winningLine_sound (s : GState) (h : Reach s)
    (L : List (Nat × Nat)) (hL : s.winningLine = some L) :
    L.length = s.boardSize ∧ ∃ m, s.winner = some m ∧
      ∀ p ∈ L, cellAcc s.board p.1 p.2 = some (some m) :=
  (reach_wf_and_line s h).2 L hL

/-- Witness for C8: the five-move game X(0,0) O(1,0) X(0,1) O(1,1) X(0,2)
reaches a state whose winning line is the full top row of X marks. -/
theorem reachable_winningLine_sound_witness :
    (makeMove (makeMove (makeMove (makeMove (makeMove
        (createTicTacToeEngine 3 GameMode.local GameDifficulty.unbeatable)
        (0, 0) 0) (1, 0) 1) (0, 1) 2) (1, 1) 3) (0, 2) 4).winningLine =
      some [(0, 0), (0, 1), (0, 2)] ∧
    ([(0, 0), (0, 1), (0, 2)] : List (Nat × Nat)).length =
      (makeMove (makeMove (makeMove (makeMove (makeMove
        (createTicTacToeEngine 3 GameMode.local GameDifficulty.unbeatable)
        (0, 0) 0) (1, 0) 1) (0, 1) 2) (1, 1) 3) (0, 2) 4).boardSize ∧
    (∃ m, (makeMove (makeMove (makeMove (makeMove (makeMove
        (createTicTacToeEngine 3 GameMode.local GameDifficulty.unbeatable)
        (0, 0) 0) (1, 0) 1) (0, 1) 2) (1, 1) 3) (0, 2) 4).winner = some m ∧
      ∀ p ∈ ([(0, 0), (0, 1), (0, 2)] : List (Nat × Nat)),
        cellAcc (makeMove (makeMove (makeMove (makeMove (makeMove
          (createTicTacToeEngine 3 GameMode.local GameDifficulty.unbeatable)
          (0, 0) 0) (1, 0) 1) (0, 1) 2) (1, 1) 3) (0, 2) 4).board p.1 p.2 =
          some (some m)) := by
  refine ⟨rfl, ?_⟩
  have hline := reachable_winningLine_sound _
    (Reach.move (0, 2) 4 (Reach.move (1, 1) 3 (Reach.move (0, 1) 2
      (Reach.move (1, 0) 1 (Reach.move (0, 0) 0
        (Reach.init 3 GameMode.local GameDifficulty.unbeatable))))))
    [(0, 0), (0, 1), (0, 2)] rfl
  exact ⟨hline.1, hline.2⟩

/-! ## C1: the two detector modes agree -/

theorem rowCheck_iff (b : Board) (n row : Nat) (m : Mark) :
    rowCheck b n row m = true ↔ RowWinP b n row m := by
  unfold rowCheck RowWinP
  rw [List.all_eq_true]
  constructor
  · intro h c hc
    simpa using h c (List.mem_range.mpr hc)
  · intro h c hc
    simpa using h c (List.mem_range.mp hc)

theorem colCheck_iff (b : Board) (n col : Nat) (m : Mark) :
    colCheck b n col m = true ↔ ColWinP b n col m := by
  unfold colCheck ColWinP
  rw [List.all_eq_true]
  constructor
  · intro h r hr
    simpa using h r (List.mem_range.mpr hr)
  · intro h r hr
    simpa using h r (List.mem_range.mp hr)

theorem diagCheck_iff (b : Board) (n : Nat) (m : Mark) :
    diagCheck b n m = true ↔ DiagWinP b n m := by
  unfold diagCheck DiagWinP
  rw [List.all_eq_true]
  constructor
  · intro h i hi
    simpa using h i (List.mem_range.mpr hi)
  · intro h i hi
    simpa using h i (List.mem_range.mp hi)

theorem antiCheck_iff (b : Board) (n : Nat) (m : Mark) :
    antiCheck b n m = true ↔ AntiWinP b n m := by
  unfold antiCheck AntiWinP
  rw [List.all_eq_true]
  constructor
  · intro h i hi
    simpa using h i (List.mem_range.mpr hi)
  · intro h i hi
    simpa using h i (List.mem_range.mp hi)

theorem cellAcc_bounds {b : Board} (hsq : SquareBoard b) {r c : Nat}
    {m : Mark} (hcell : cellAcc b r c = some (some m)) :
    r < b.length ∧ c < b.length := by
  refine ⟨cellAcc_isSome_left hcell, ?_⟩
  rcases cellAcc_row hcell with ⟨row, hrow, hgot⟩
  have hlen : row.length = b.length := hsq row (List.get?_mem hrow)
  have hc : c < row.length := (List.get?_eq_some.mp hgot).choose
  omega

theorem cellAcc_clearCell_same {b : Board} {r c : Nat} {m : Mark}
    (hcell : cellAcc b r c = some (some m)) :
    cellAcc (clearCell b r c) r c = some Cell.nil := by
  rcases cellAcc_row hcell with ⟨row, hrow, hgot⟩
  have hrlt : r < b.length := cellAcc_isSome_left hcell
  have hclt : c < row.length := (List.get?_eq_some.mp hgot).choose
  have hgetd : b.getD r [] = row := by
    have h2 := hrow
    rw [List.get?_eq_getElem?, List.getElem?_eq_getElem hrlt] at h2
    rw [List.getD_eq_getElem b [] hrlt]
    exact Option.some_inj.mp h2
  unfold clearCell setCell cellAcc
  rw [hgetd, List.get?_set_eq_of_lt _ hrlt]
  dsimp only [Option.bind]
  rw [List.get?_set_eq_of_lt _ hclt]

theorem cellAcc_clearCell_ne {b : Board} {r c : Nat} (r2 c2 : Nat)
    (hne : r2 ≠ r ∨ c2 ≠ c) :
    cellAcc (clearCell b r c) r2 c2 = cellAcc b r2 c2 := by
  unfold clearCell setCell cellAcc
  by_cases hr : r2 = r
  · rcases hne with hne | hne
    · exact absurd hr hne
    · subst hr
      by_cases hlt : r2 < b.length
      · rw [List.get?_set_eq_of_lt _ hlt]
        dsimp only [Option.bind]
        rw [List.get?_set_ne _ _ (fun hE => hne hE.symm)]
        have hgetd : b.get? r2 = some (b.getD r2 []) := by
          rw [List.getD_eq_getElem b [] hlt, List.get?_eq_getElem?,
            List.getElem?_eq_getElem hlt]
        rw [hgetd]
      · rw [List.set_eq_of_length_le (Nat.le_of_not_lt hlt)]
  · rw [List.get?_set_ne _ _ (fun hE => hr hE.symm)]

theorem findSome?_of_unique {α β : Type} {f : α → Option β} {l : List α}
    {x : α} (hx : x ∈ l) (hothers : ∀ y ∈ l, y ≠ x → f y = none) :
    l.findSome? f = f x := by
  induction l with
  | nil => cases hx
  | cons a as ih =>
    rw [List.findSome?_cons]
    by_cases hax : a = x
    · subst hax
      rcases hfa : f a with _ | v
      · dsimp only
        rw [List.findSome?_eq_none_iff.mpr]
        intro y hy
        by_cases hya : y = a
        · rw [hya]; exact hfa
        · exact hothers y (List.mem_cons_of_mem _ hy) hya
      · rfl
    · rw [hothers a (List.mem_cons_self _ _) hax]
      dsimp only
      have hxas : x ∈ as := by
        rcases List.mem_cons.mp hx with rfl | h
        · exact absurd rfl hax
        · exact h
      exact ih hxas fun y hy hyx => hothers y (List.mem_cons_of_mem _ hy) hyx

theorem findRowWin_eq_none {b : Board} {n : Nat}
    (hno : ∀ row2, row2 < n → ∀ m2, ¬RowWinP b n row2 m2) :
    findRowWin b n = none := by
  unfold findRowWin
  rw [List.findSome?_eq_none_iff]
  intro row hrow
  rcases hcellr : cellAcc b row 0 with _ | cl
  · rfl
  · rcases cl with _ | m0
    · rfl
    · dsimp only
      rw [if_neg fun hchk =>
        hno row (List.mem_range.mp hrow) m0 ((rowCheck_iff _ _ _ _).mp hchk)]

theorem findColWin_eq_none {b : Board} {n : Nat}
    (hno : ∀ col2, col2 < n → ∀ m2, ¬ColWinP b n col2 m2) :
    findColWin b n = none := by
  unfold findColWin
  rw [List.findSome?_eq_none_iff]
  intro col hcol
  rcases hcellr : cellAcc b 0 col with _ | cl
  · rfl
  · rcases cl with _ | m0
    · rfl
    · dsimp only
      rw [if_neg fun hchk =>
        hno col (List.mem_range.mp hcol) m0 ((colCheck_iff _ _ _ _).mp hchk)]

theorem findDiagWin_eq_none {b : Board} {n : Nat}
    (hno : ∀ m2, ¬DiagWinP b n m2) : findDiagWin b n = none := by
  unfold findDiagWin
  rcases hcellr : cellAcc b 0 0 with _ | cl
  · rfl
  · rcases cl with _ | m0
    · rfl
    · dsimp only
      rw [if_neg fun hchk => hno m0 ((diagCheck_iff _ _ _).mp hchk)]

theorem findAntiWin_eq_none {b : Board} {n : Nat}
    (hno : ∀ m2, ¬AntiWinP b n m2) : findAntiWin b n = none := by
  unfold findAntiWin
  rcases hcellr : cellAcc b 0 (n - 1) with _ | cl
  · rfl
  · rcases cl with _ | m0
    · rfl
    · dsimp only
      rw [if_neg fun hchk => hno m0 ((antiCheck_iff _ _ _).mp hchk)]

theorem findRowWin_eq_win {b : Board} {n row : Nat} {m : Mark}
    (hrow : row < n) (hwin : RowWinP b n row m)
    (hothers : ∀ row2, row2 < n → row2 ≠ row → ∀ m2, ¬RowWinP b n row2 m2) :
    findRowWin b n = some (GOResult.win m (rowLine n row)) := by
  unfold findRowWin
  rw [findSome?_of_unique (List.mem_range.mpr hrow) ?_]
  · rw [hwin 0 (lt_of_le_of_lt (Nat.zero_le row) hrow)]
    dsimp only
    rw [if_pos ((rowCheck_iff _ _ _ _).mpr hwin)]
  · intro y hy hyne
    rcases hcy : cellAcc b y 0 with _ | cl
    · rfl
    · rcases cl with _ | m0
      · rfl
      · dsimp only
        rw [if_neg fun hchk =>
          hothers y (List.mem_range.mp hy) hyne m0
            ((rowCheck_iff _ _ _ _).mp hchk)]

theorem findColWin_eq_win {b : Board} {n col : Nat} {m : Mark}
    (hcol : col < n) (hwin : ColWinP b n col m)
    (hothers : ∀ col2, col2 < n → col2 ≠ col → ∀ m2, ¬ColWinP b n col2 m2) :
    findColWin b n = some (GOResult.win m (colLine n col)) := by
  unfold findColWin
  rw [findSome?_of_unique (List.mem_range.mpr hcol) ?_]
  · rw [hwin 0 (lt_of_le_of_lt (Nat.zero_le col) hcol)]
    dsimp only
    rw [if_pos ((colCheck_iff _ _ _ _).mpr hwin)]
  · intro y hy hyne
    rcases hcy : cellAcc b 0 y with _ | cl
    · rfl
    · rcases cl with _ | m0
      · rfl
      · dsimp only
        rw [if_neg fun hchk =>
          hothers y (List.mem_range.mp hy) hyne m0
            ((colCheck_iff _ _ _ _).mp hchk)]

theorem findDiagWin_eq_win {b : Board} {n : Nat} {m : Mark} (hn : 0 < n)
    (hwin : DiagWinP b n m) :
    findDiagWin b n = some (GOResult.win m (diagLine n)) := by
  unfold findDiagWin
  rw [hwin 0 hn]
  dsimp only
  rw [if_pos ((diagCheck_iff _ _ _).mpr hwin)]

theorem findAntiWin_eq_win {b : Board} {n : Nat} {m : Mark} (hn : 0 < n)
    (hwin : AntiWinP b n m) :
    findAntiWin b n = some (GOResult.win m (antiLine n)) := by
  unfold findAntiWin
  have h0 := hwin 0 hn
  rw [Nat.sub_zero] at h0
  rw [h0]
  dsimp only
  rw [if_pos ((antiCheck_iff _ _ _).mpr hwin)]

theorem checkGameOverFull_eq_of_scan_some {b : Board} {res : GOResult}
    (h : ((findRowWin b b.length).orElse fun _ =>
      (findColWin b b.length).orElse fun _ =>
      (findDiagWin b b.length).orElse fun _ =>
      findAntiWin b b.length) = some res) : checkGameOverFull b = res := by
  unfold checkGameOverFull
  dsimp only
  rw [h]

theorem checkGameOverFull_eq_of_scan_none {b : Board}
    (h : ((findRowWin b b.length).orElse fun _ =>
      (findColWin b b.length).orElse fun _ =>
      (findDiagWin b b.length).orElse fun _ =>
      findAntiWin b b.length) = none) :
    checkGameOverFull b = drawResult b b.length := by
  unfold checkGameOverFull
  dsimp only
  rw [h]

theorem full_winner_none {b2 : Board}
    (h : (checkGameOverFull b2).winner = none) :
    findRowWin b2 b2.length = none ∧ findColWin b2 b2.length = none ∧
    findDiagWin b2 b2.length = none ∧ findAntiWin b2 b2.length = none := by
  rcases hR : findRowWin b2 b2.length with _ | res
  · rcases hC : findColWin b2 b2.length with _ | res
    · rcases hD : findDiagWin b2 b2.length with _ | res
      · rcases hA : findAntiWin b2 b2.length with _ | res
        · exact ⟨rfl, rfl, rfl, rfl⟩
        · exfalso
          have heq := checkGameOverFull_eq_of_scan_some
            (by rw [hR, hC, hD, hA]; rfl)
          rcases findAntiWin_win hA with ⟨m, line, rfl⟩
          rw [heq] at h
          cases h
      · exfalso
        have heq := checkGameOverFull_eq_of_scan_some
          (by rw [hR, hC, hD]; rfl)
        rcases findDiagWin_win hD with ⟨m, line, rfl⟩
        rw [heq] at h
        cases h
    · exfalso
      have heq := checkGameOverFull_eq_of_scan_some (by rw [hR, hC]; rfl)
      rcases findColWin_win hC with ⟨m, line, rfl⟩
      rw [heq] at h
      cases h
  · exfalso
    have heq := checkGameOverFull_eq_of_scan_some (by rw [hR]; rfl)
    rcases findRowWin_win hR with ⟨m, line, rfl⟩
    rw [heq] at h
    cases h

theorem rowWinP_clear_iff {b : Board} {r c n row2 : Nat} {m2 : Mark}
    (hne : row2 ≠ r) :
    RowWinP (clearCell b r c) n row2 m2 ↔ RowWinP b n row2 m2 := by
  unfold RowWinP
  refine forall₂_congr fun c2 hc2 => ?_
  rw [cellAcc_clearCell_ne _ _ (Or.inl hne)]

theorem colWinP_clear_iff {b : Board} {r c n col2 : Nat} {m2 : Mark}
    (hne : col2 ≠ c) :
    ColWinP (clearCell b r c) n col2 m2 ↔ ColWinP b n col2 m2 := by
  unfold ColWinP
  refine forall₂_congr fun r2 hr2 => ?_
  rw [cellAcc_clearCell_ne _ _ (Or.inr hne)]

theorem diagWinP_clear_iff {b : Board} {r c n : Nat} {m2 : Mark}
    (hne : r ≠ c) :
    DiagWinP (clearCell b r c) n m2 ↔ DiagWinP b n m2 := by
  unfold DiagWinP
  refine forall₂_congr fun i hi => ?_
  by_cases hir : i = r
  · subst hir
    rw [cellAcc_clearCell_ne (b := b) (r := i) (c := c) i i (Or.inr hne)]
  · rw [cellAcc_clearCell_ne _ _ (Or.inl hir)]

theorem antiWinP_clear_iff {b : Board} {r c n : Nat} {m2 : Mark}
    (hne : r + c ≠ n - 1) :
    AntiWinP (clearCell b r c) n m2 ↔ AntiWinP b n m2 := by
  unfold AntiWinP
  refine forall₂_congr fun i hi => ?_
  by_cases hir : i = r
  · subst hir
    rw [cellAcc_clearCell_ne (b := b) (r := i) (c := c) i (n - 1 - i)
      (Or.inr fun hE => hne (by omega))]
  · rw [cellAcc_clearCell_ne _ _ (Or.inl hir)]

theorem rowWinP_mark {b : Board} {n r c : Nat} {m m2 : Mark} (hcn : c < n)
    (hcell : cellAcc b r c = some (some m)) (hw : RowWinP b n r m2) :
    m2 = m := by
  have h2 := hw c hcn
  rw [hcell] at h2
  exact (Option.some_inj.mp (Option.some_inj.mp h2)).symm

theorem colWinP_mark {b : Board} {n r c : Nat} {m m2 : Mark} (hrn : r < n)
    (hcell : cellAcc b r c = some (some m)) (hw : ColWinP b n c m2) :
    m2 = m := by
  have h2 := hw r hrn
  rw [hcell] at h2
  exact (Option.some_inj.mp (Option.some_inj.mp h2)).symm

theorem diagWinP_mark {b : Board} {n r c : Nat} {m m2 : Mark} (hrc : r = c)
    (hrn : r < n) (hcell : cellAcc b r c = some (some m))
    (hw : DiagWinP b n m2) : m2 = m := by
  subst hrc
  have h2 := hw r hrn
  rw [hcell] at h2
  exact (Option.some_inj.mp (Option.some_inj.mp h2)).symm

theorem antiWinP_mark {b : Board} {n r c : Nat} {m m2 : Mark}
    (hrc : r + c = n - 1) (hrn : r < n)
    (hcell : cellAcc b r c = some (some m)) (hw : AntiWinP b n m2) :
    m2 = m := by
  have h2 := hw r hrn
  have hcr : n - 1 - r = c := by omega
  rw [hcr, hcell] at h2
  exact (Option.some_inj.mp (Option.some_inj.mp h2)).symm

theorem rowWin_findRowWin_ne_none {b2 : Board} {n row : Nat} {m2 : Mark}
    (hn : 0 < n) (hrow : row < n) (hw : RowWinP b2 n row m2) :
    findRowWin b2 n ≠ none := by
  intro hnone
  unfold findRowWin at hnone
  have hinner := List.findSome?_eq_none_iff.mp hnone row
    (List.mem_range.mpr hrow)
  rw [hw 0 hn] at hinner
  dsimp only at hinner
  rw [if_pos ((rowCheck_iff _ _ _ _).mpr hw)] at hinner
  cases hinner

theorem colWin_findColWin_ne_none {b2 : Board} {n col : Nat} {m2 : Mark}
    (hn : 0 < n) (hcol : col < n) (hw : ColWinP b2 n col m2) :
    findColWin b2 n ≠ none := by
  intro hnone
  unfold findColWin at hnone
  have hinner := List.findSome?_eq_none_iff.mp hnone col
    (List.mem_range.mpr hcol)
  rw [hw 0 hn] at hinner
  dsimp only at hinner
  rw [if_pos ((colCheck_iff _ _ _ _).mpr hw)] at hinner
  cases hinner

theorem diagWin_findDiagWin_ne_none {b2 : Board} {n : Nat} {m2 : Mark}
    (hn : 0 < n) (hw : DiagWinP b2 n m2) : findDiagWin b2 n ≠ none := by
  intro hnone
  rw [findDiagWin_eq_win hn hw] at hnone
  cases hnone

theorem antiWin_findAntiWin_ne_none {b2 : Board} {n : Nat} {m2 : Mark}
    (hn : 0 < n) (hw : AntiWinP b2 n m2) : findAntiWin b2 n ≠ none := by
  intro hnone
  rw [findAntiWin_eq_win hn hw] at hnone
  cases hnone

/-- **C1**: on every board that last-move mode is capable of evaluating —
the cell of the last move holds the mark that just played, and before
that mark was placed (cell cleared) the full-scan detector reported no
winner — the last-move-optimized detector and the full-scan detector
return the same atomic result. -/
theorem checkGameOver_modes_agree (b : Board) (r c : Nat) (m : Mark)
    (hsq : SquareBoard b) (hcell : cellAcc b r c = some (some m))
    (hprev : (checkGameOverFull (clearCell b r c)).winner = none) :
    checkGameOver b (some (r, c)) = checkGameOver b none := by
  obtain ⟨hr, hc⟩ := cellAcc_bounds hsq hcell
  have hn0 : 0 < b.length := lt_of_le_of_lt (Nat.zero_le r) hr
  have hclen : (clearCell b r c).length = b.length := List.length_set _ _ _
  obtain ⟨hfr, hfc, hfd, hfa⟩ := full_winner_none hprev
  rw [hclen] at hfr hfc hfd hfa
  have hNoRow : ∀ row2, row2 < b.length → row2 ≠ r → ∀ m2,
      ¬RowWinP b b.length row2 m2 := fun row2 h2 hne m2 hw =>
    rowWin_findRowWin_ne_none hn0 h2 ((rowWinP_clear_iff hne).mpr hw) hfr
  have hNoCol : ∀ col2, col2 < b.length → col2 ≠ c → ∀ m2,
      ¬ColWinP b b.length col2 m2 := fun col2 h2 hne m2 hw =>
    colWin_findColWin_ne_none hn0 h2 ((colWinP_clear_iff hne).mpr hw) hfc
  have hNoDiagNe : r ≠ c → ∀ m2, ¬DiagWinP b b.length m2 :=
    fun hne m2 hw =>
      diagWin_findDiagWin_ne_none hn0 ((diagWinP_clear_iff hne).mpr hw) hfd
  have hNoAntiNe : r + c ≠ b.length - 1 → ∀ m2, ¬AntiWinP b b.length m2 :=
    fun hne m2 hw =>
      antiWin_findAntiWin_ne_none hn0 ((antiWinP_clear_iff hne).mpr hw) hfa
  show checkGameOverLast b r c = checkGameOverFull b
  by_cases hRW : rowCheck b b.length r m
  · have hwinR := (rowCheck_iff _ _ _ _).mp hRW
    have hlast : checkGameOverLast b r c =
        GOResult.win m (rowLine b.length r) := by
      unfold checkGameOverLast
      dsimp only
      rw [hcell]
      dsimp only
      rw [if_pos hRW]
    have hfull : checkGameOverFull b = GOResult.win m (rowLine b.length r) :=
      checkGameOverFull_eq_of_scan_some
        (by rw [findRowWin_eq_win hr hwinR hNoRow]; rfl)
    rw [hlast, hfull]
  · have hnoRowAll : ∀ row2, row2 < b.length → ∀ m2,
        ¬RowWinP b b.length row2 m2 := by
      intro row2 h2 m2 hw
      by_cases hne : row2 = r
      · subst hne
        have hm2 : m2 = m := rowWinP_mark hc hcell hw
        subst hm2
        exact hRW ((rowCheck_iff _ _ _ _).mpr hw)
      · exact hNoRow row2 h2 hne m2 hw
    by_cases hCW : colCheck b b.length c m
    · have hwinC := (colCheck_iff _ _ _ _).mp hCW
      have hlast : checkGameOverLast b r c =
          GOResult.win m (colLine b.length c) := by
        unfold checkGameOverLast
        dsimp only
        rw [hcell]
        dsimp only
        rw [if_neg hRW, if_pos hCW]
      have hfull : checkGameOverFull b =
          GOResult.win m (colLine b.length c) :=
        checkGameOverFull_eq_of_scan_some
          (by rw [findRowWin_eq_none hnoRowAll,
                findColWin_eq_win hc hwinC hNoCol]; rfl)
      rw [hlast, hfull]
    · have hnoColAll : ∀ col2, col2 < b.length → ∀ m2,
          ¬ColWinP b b.length col2 m2 := by
        intro col2 h2 m2 hw
        by_cases hne : col2 = c
        · subst hne
          have hm2 : m2 = m := colWinP_mark hr hcell hw
          subst hm2
          exact hCW ((colCheck_iff _ _ _ _).mpr hw)
        · exact hNoCol col2 h2 hne m2 hw
      by_cases hDW : (r == c && diagCheck b b.length m) = true
      · obtain ⟨hbeq, hchk⟩ := Bool.and_eq_true_iff.mp hDW
        have hwinD := (diagCheck_iff _ _ _).mp hchk
        have hlast : checkGameOverLast b r c =
            GOResult.win m (diagLine b.length) := by
          unfold checkGameOverLast
          dsimp only
          rw [hcell]
          dsimp only
          rw [if_neg hRW, if_neg hCW, if_pos hDW]
        have hfull : checkGameOverFull b =
            GOResult.win m (diagLine b.length) :=
          checkGameOverFull_eq_of_scan_some
            (by rw [findRowWin_eq_none hnoRowAll,
                  findColWin_eq_none hnoColAll,
                  findDiagWin_eq_win hn0 hwinD]; rfl)
        rw [hlast, hfull]
      · have hnoDiagAll : ∀ m2, ¬DiagWinP b b.length m2 := by
          intro m2 hw
          by_cases hrc2 : r = c
          · have hm2 : m2 = m := diagWinP_mark hrc2 hr hcell hw
            subst hm2
            apply hDW
            rw [Bool.and_eq_true_iff]
            exact ⟨beq_iff_eq.mpr hrc2, (diagCheck_iff _ _ _).mpr hw⟩
          · exact hNoDiagNe hrc2 m2 hw
        by_cases hAW : (r + c == b.length - 1 &&
            antiCheck b b.length m) = true
        · obtain ⟨hbeq, hchk⟩ := Bool.and_eq_true_iff.mp hAW
          have hwinA := (antiCheck_iff _ _ _).mp hchk
          have hlast : checkGameOverLast b r c =
              GOResult.win m (antiLine b.length) := by
            unfold checkGameOverLast
            dsimp only
            rw [hcell]
            dsimp only
            rw [if_neg hRW, if_neg hCW, if_neg hDW, if_pos hAW]
          have hfull : checkGameOverFull b =
              GOResult.win m (antiLine b.length) :=
            checkGameOverFull_eq_of_scan_some
              (by rw [findRowWin_eq_none hnoRowAll,
                    findColWin_eq_none hnoColAll,
                    findDiagWin_eq_none hnoDiagAll,
                    findAntiWin_eq_win hn0 hwinA]; rfl)
          rw [hlast, hfull]
        · have hnoAntiAll : ∀ m2, ¬AntiWinP b b.length m2 := by
            intro m2 hw
            by_cases hrc2 : r + c = b.length - 1
            · have hm2 : m2 = m := antiWinP_mark hrc2 hr hcell hw
              subst hm2
              apply hAW
              rw [Bool.and_eq_true_iff]
              exact ⟨beq_iff_eq.mpr hrc2, (antiCheck_iff _ _ _).mpr hw⟩
            · exact hNoAntiNe hrc2 m2 hw
          have hlast : checkGameOverLast b r c = drawResult b b.length := by
            unfold checkGameOverLast
            dsimp only
            rw [hcell]
            dsimp only
            rw [if_neg hRW, if_neg hCW, if_neg hDW, if_neg hAW]
          have hfull : checkGameOverFull b = drawResult b b.length :=
            checkGameOverFull_eq_of_scan_none
              (by rw [findRowWin_eq_none hnoRowAll,
                    findColWin_eq_none hnoColAll,
                    findDiagWin_eq_none hnoDiagAll,
                    findAntiWin_eq_none hnoAntiAll]; rfl)
          rw [hlast, hfull]

/-- Witness for C1: the board after X completes the top row with last move
`(0,2)` — both detector modes report the same X win on the top row. -/
theorem checkGameOver_modes_agree_witness :
    cellAcc [[some Mark.X, some Mark.X, some Mark.X],
      [some Mark.O, some Mark.O, Cell.nil],
      [Cell.nil, Cell.nil, Cell.nil]] 0 2 = some (some Mark.X) ∧
    (checkGameOverFull (clearCell
      [[some Mark.X, some Mark.X, some Mark.X],
       [some Mark.O, some Mark.O, Cell.nil],
       [Cell.nil, Cell.nil, Cell.nil]] 0 2)).winner = none ∧
    checkGameOver [[some Mark.X, some Mark.X, some Mark.X],
      [some Mark.O, some Mark.O, Cell.nil],
      [Cell.nil, Cell.nil, Cell.nil]] (some (0, 2)) =
    checkGameOver [[some Mark.X, some Mark.X, some Mark.X],
      [some Mark.O, some Mark.O, Cell.nil],
      [Cell.nil, Cell.nil, Cell.nil]] none := by
  refine ⟨rfl, by decide, ?_⟩
  exact checkGameOver_modes_agree _ 0 2 Mark.X
    (by unfold SquareBoard; decide) rfl (by decide)

end TTT
